import Mathlib

/-!
Verification development for the me2resh-daily feed aggregation pipeline.

The TypeScript source is shallowly embedded: pure functions become Lean
functions, JavaScript runtime behaviour (string methods, the WHATWG URL
class, Date parsing) is modelled explicitly on `List Char` / `Option`,
network effects (RSS fetches, HTTP probes, the research API call) are
passed in as explicit outcome values (`Except`), and thrown exceptions
become `Except.error`.

The WHATWG URL model covers the fragment of URL syntax the repository's
inputs exercise: a lowercase scheme, for special schemes (http, https, ws,
wss, ftp, file) an authority with a lowercase host and no credentials,
port or fragment, a path of verbatim-serialised characters (no
percent-encoding or dot-segment normalisation), and a query whose names
and values use only characters that URLSearchParams serialises verbatim.
Strings outside this fragment parse to `none` (modelling "cannot be
canonicalised").
-/

namespace MDaily

/-! ## JavaScript string primitives (ASCII fragment) -/

/-- Models `String.prototype.toLowerCase` on ASCII data. -/
def lowerStr (s : String) : String := String.mk (s.data.map Char.toLower)

/-- Substring test on character lists, models `String.prototype.includes`. -/
def containsSub (needle : List Char) : List Char → Bool
  | [] => needle.isEmpty
  | c :: rest => needle.isPrefixOf (c :: rest) || containsSub needle rest

/-- Models `haystack.includes(needle)`. -/
def includes (haystack needle : String) : Bool := containsSub needle.data haystack.data

/-- ASCII whitespace recognised by `String.prototype.trim`. -/
def isJsSpace (c : Char) : Bool :=
  c = ' ' || c.toNat = 0x09 || c.toNat = 0x0a || c.toNat = 0x0b || c.toNat = 0x0c || c.toNat = 0x0d

/-- Models `String.prototype.trim` (ASCII whitespace). -/
def trimStr (s : String) : String :=
  String.mk (((s.data.dropWhile isJsSpace).reverse.dropWhile isJsSpace).reverse)

/-- Models `a || b` on possibly-undefined strings: the empty string is falsy. -/
def jsOrStr (a b : Option String) : Option String :=
  match a with
  | some s => if s = "" then b else some s
  | none => b

/-- Models `a || d` where `a` is a possibly-undefined string and `d` a default. -/
def jsOrDefault (a : Option String) (d : String) : String :=
  match a with
  | some s => if s = "" then d else s
  | none => d

/-! ## WHATWG URL model (fragment, see module comment) -/

/-- A parsed URL in the modelled fragment. For special schemes `host` is the
(nonempty) authority host and `path` starts with `/`; for non-special schemes
the path is opaque and `host` is empty. `query = none` models a null query;
`query = some pairs` models the `URLSearchParams` list. -/
structure UrlModel where
  scheme : List Char
  host : List Char
  path : List Char
  query : Option (List (List Char × List Char))
deriving Repr, DecidableEq

/-- The WHATWG special schemes. -/
def specialSchemes : List (List Char) :=
  ["http", "https", "ws", "wss", "ftp", "file"].map String.data

def isSpecial (scheme : List Char) : Bool := specialSchemes.contains scheme

def isSchemeHead (c : Char) : Bool := 'a' ≤ c && c ≤ 'z'

def isSchemeChar (c : Char) : Bool :=
  isSchemeHead c || c.isDigit || c = '+' || c = '-' || c = '.'

def isHostChar (c : Char) : Bool :=
  isSchemeHead c || c.isDigit || c = '.' || c = '-'

/-- Characters the WHATWG URL serialiser emits verbatim in paths: printable
ASCII minus the path percent-encode set (quote, hash, percent, angle
brackets, question mark, backslash, caret, backquote, braces, pipe). -/
def isPathChar (c : Char) : Bool :=
  0x21 ≤ c.toNat && c.toNat ≤ 0x7e &&
  c.toNat ≠ 0x22 && c.toNat ≠ 0x23 && c.toNat ≠ 0x25 && c.toNat ≠ 0x3c &&
  c.toNat ≠ 0x3e && c.toNat ≠ 0x3f && c.toNat ≠ 0x5c && c.toNat ≠ 0x5e &&
  c.toNat ≠ 0x60 && c.toNat ≠ 0x7b && c.toNat ≠ 0x7c && c.toNat ≠ 0x7d

/-- Characters `URLSearchParams` serialises verbatim inside a name or value. -/
def isQVChar (c : Char) : Bool :=
  c.isAlpha || c.isDigit || c.toNat = 0x2a || c = '-' || c = '.' || c = '_'

/-- Characters admitted in a raw query string of the fragment. -/
def isQueryRawChar (c : Char) : Bool := isQVChar c || c = '&' || c = '='

/-- Split a character list on a separator; models `String.prototype.split`
restricted to a single-character separator. Always returns a nonempty list. -/
def splitOnChar (sep : Char) : List Char → List (List Char)
  | [] => [[]]
  | c :: cs =>
    match splitOnChar sep cs with
    | [] => [[c]]
    | s :: ss => if c = sep then [] :: s :: ss else (c :: s) :: ss

/-- Split a query segment at its first `=`, models `URLSearchParams` parsing
of one `name=value` piece. -/
def splitEq (seg : List Char) : List Char × List Char :=
  match seg.dropWhile (fun c => c ≠ '=') with
  | [] => (seg.takeWhile (fun c => c ≠ '='), [])
  | _ :: v => (seg.takeWhile (fun c => c ≠ '='), v)

/-- `application/x-www-form-urlencoded` parser on the fragment. -/
def parseQuery (q : List Char) : List (List Char × List Char) :=
  ((splitOnChar '&' q).filter (fun seg => seg ≠ [])).map splitEq

/-- One serialised `name=value` pair. -/
def serializePair (p : List Char × List Char) : List Char := p.1 ++ '=' :: p.2

/-- Join segments with `&` between them. -/
def joinAmp : List (List Char) → List Char
  | [] => []
  | [s] => s
  | s :: rest => s ++ '&' :: joinAmp rest

/-- `URLSearchParams` serialiser on the fragment. -/
def serializeQuery (ps : List (List Char × List Char)) : List Char :=
  joinAmp (ps.map serializePair)

/-- WHATWG URL parser on the modelled fragment (`new URL(s)`); `none` models
a thrown `TypeError` or a URL outside the fragment. -/
def parseUrl (s : String) : Option UrlModel :=
  let cs := s.data
  let sch := cs.takeWhile isSchemeChar
  let rest := cs.dropWhile isSchemeChar
  if sch = [] then none
  else if !isSchemeHead (sch.headD ' ') then none
  else
    match rest with
    | ':' :: r1 =>
      if isSpecial sch then
        match r1 with
        | '/' :: '/' :: r2 =>
          let host := r2.takeWhile isHostChar
          let r3 := r2.dropWhile isHostChar
          if host = [] then none
          else
            match r3 with
            | [] => some ⟨sch, host, ['/'], none⟩
            | '?' :: q =>
              if q.all isQueryRawChar then some ⟨sch, host, ['/'], some (parseQuery q)⟩ else none
            | '/' :: _ =>
              let path := r3.takeWhile isPathChar
              let r4 := r3.dropWhile isPathChar
              match r4 with
              | [] => some ⟨sch, host, path, none⟩
              | '?' :: q =>
                if q.all isQueryRawChar then some ⟨sch, host, path, some (parseQuery q)⟩ else none
              | _ => none
            | _ => none
        | _ => none
      else
        match r1 with
        | '/' :: _ => none
        | _ =>
          let path := r1.takeWhile isPathChar
          let r2 := r1.dropWhile isPathChar
          match r2 with
          | [] => some ⟨sch, [], path, none⟩
          | '?' :: q =>
            if q.all isQueryRawChar then some ⟨sch, [], path, some (parseQuery q)⟩ else none
          | _ => none
    | _ => none

/-- WHATWG URL serialiser (`url.toString()`) on the fragment. -/
def serializeUrl (u : UrlModel) : String :=
  let q : List Char := match u.query with
    | none => []
    | some ps => '?' :: serializeQuery ps
  if isSpecial u.scheme then
    String.mk (u.scheme ++ ':' :: '/' :: '/' :: (u.host ++ u.path ++ q))
  else
    String.mk (u.scheme ++ ':' :: (u.path ++ q))

/-- Wellformedness of one query pair: the name uses only verbatim
`URLSearchParams` characters; the value may additionally contain `=`. -/
def wfQueryPair (p : List Char × List Char) : Bool :=
  p.1.all isQVChar && p.2.all (fun c => isQVChar c || c = '=')

/-- Wellformedness of a parsed URL record: exactly the invariants
`parseUrl` establishes, under which `serializeUrl` round-trips. -/
def UrlWfB (u : UrlModel) : Bool :=
  (u.scheme ≠ []) && isSchemeHead (u.scheme.headD ' ') && u.scheme.all isSchemeChar &&
  u.path.all isPathChar &&
  (if isSpecial u.scheme then
    (u.host ≠ []) && u.host.all isHostChar && (u.path.headD ' ' == '/') && (u.path ≠ [])
  else
    (u.host == []) && !(u.path.headD ' ' == '/')) &&
  (match u.query with
   | none => true
   | some ps => ps.all wfQueryPair)

/-! ## URL canonicalizer & allowlist (src/utils/url-validator.ts) -/

/-- The tracking query parameters removed by `canonicalizeUrl`. -/
def trackingParams : List (List Char) :=
  ["utm_source", "utm_medium", "utm_campaign", "utm_term", "utm_content",
   "gclid", "fbclid", "igshid", "_ga", "mc_cid", "mc_eid"].map String.data

/-- Models the `url.protocol = 'https:'` assignment: the WHATWG scheme setter
only switches between special schemes, so a non-special scheme is left
unchanged. -/
def forceHttps (u : UrlModel) : UrlModel :=
  if u.scheme ≠ "https".data then
    if isSpecial u.scheme then { u with scheme := "https".data } else u
  else u

/-- Models `url.searchParams.delete(name)` on the parameter list. -/
def deleteParam (ps : List (List Char × List Char)) (name : List Char) :
    List (List Char × List Char) :=
  ps.filter (fun p => p.1 ≠ name)

/-- Models the eleven `searchParams.delete` calls of `canonicalizeUrl`; after
a delete an empty parameter list makes the URL's query null. -/
def removeTrackingParams (u : UrlModel) : UrlModel :=
  match u.query with
  | none => u
  | some ps =>
    let ps := trackingParams.foldl deleteParam ps
    { u with query := if ps = [] then none else some ps }

/-- Models the trailing-slash removal of `canonicalizeUrl`. The `pathname`
setter is a no-op on a URL with an opaque path, hence the special-scheme
guard. -/
def stripTrailingSlash (u : UrlModel) : UrlModel :=
  if isSpecial u.scheme then
    if u.path ≠ ['/'] && u.path.getLast? = some '/' then
      { u with path := u.path.dropLast }
    else u
  else u

/-- Whether the trailing-slash step changes the record. -/
def needsStrip (u : UrlModel) : Bool :=
  isSpecial u.scheme && (u.path ≠ ['/'] && u.path.getLast? = some '/')

/-- The record-level canonicalisation pipeline of `canonicalizeUrl`: force
HTTPS, delete the tracking parameters, strip one trailing slash. -/
def canonRec (u : UrlModel) : UrlModel :=
  stripTrailingSlash (removeTrackingParams (forceHttps u))

/-- `canonicalizeUrl` from src/utils/url-validator.ts: force HTTPS, delete the
tracking parameters, strip one trailing slash; on a parse failure return the
input unchanged (the function never throws). -/
def canonicalizeUrl (rawUrl : String) : String :=
  match parseUrl rawUrl with
  | none => rawUrl
  | some url => serializeUrl (canonRec url)

/-- The static `ALLOWLIST` of src/utils/url-validator.ts. -/
def ALLOWLIST : List String :=
  ["aws.amazon.com", "alas.aws.amazon.com", "docs.aws.amazon.com",
   "blog.hl7.org", "hl7news.hl7.org", "fhir.org", "fhirblog.com",
   "digital.nhs.uk", "england.nhs.uk", "standards.nhs.uk", "healthit.gov",
   "cms.gov", "fda.gov", "gov.uk", "yellowcard.mhra.gov.uk",
   "ema.europa.eu", "imdrf.org", "hpra.ie", "has-sante.fr",
   "ansm.sante.fr", "cnil.fr", "bfarm.de", "gematik.de", "aemps.gob.es",
   "aepd.es", "canada.ca", "cihi.ca", "infoway-inforoute.ca",
   "openai.com", "anthropic.com", "huggingface.co", "ai.nejm.org",
   "nature.com", "thelancet.com", "investors.hims.com", "news.hims.com",
   "sec.gov", "find-and-update.company-information.service.gov.uk",
   "nvd.nist.gov", "cisa.gov", "github.com", "cvedetails.com",
   "tenable.com", "cncf.io", "serverlessland.com", "serverless.com",
   "backstage.spotify.com", "backstage.io", "thoughtworks.com",
   "infoq.com", "thenewstack.io", "go.dev"]

/-- `url.hostname` in the fragment: the host for special schemes, the empty
string for an opaque-path URL. -/
def hostnameOf (u : UrlModel) : String :=
  if isSpecial u.scheme then String.mk u.host else ""

/-- `isDomainAllowed` from src/utils/url-validator.ts: hostname must be an
exact member of the allowlist; unparseable URLs are rejected. -/
def isDomainAllowed (url : String) : Bool :=
  match parseUrl url with
  | none => false
  | some u => ALLOWLIST.contains (hostnameOf u)

/-! ## Domain records (src/domain/source-config.ts, src/domain/scan-result.ts) -/

structure Source where
  name : String
  url : String
  rss_url : Option String
  type : String
  keywords : List String
deriving Repr, DecidableEq

structure RawFeed where
  title : String
  source : String
  source_url : String
  published_at : String
deriving Repr, DecidableEq

/-- `ValidatedRawFeed` of src/infrastructure/source-fetcher.ts. -/
structure ValidatedRawFeed extends RawFeed where
  domain : String
  status_code : Nat
  checked_at : String
deriving Repr, DecidableEq

/-! ## URL validation (src/utils/url-validator.ts, `validateUrl`) -/

/-- Outcome of one `fetch` call: an HTTP response status, or a thrown network
error / timeout. -/
inductive ProbeResult where
  | ok (status : Nat)
  | err (msg : String)
deriving Repr, DecidableEq

/-- The two reachability probes `validateUrl` may issue: the HEAD request and
the GET request it falls back to when HEAD throws. -/
structure ProbeEnv where
  head : ProbeResult
  get : ProbeResult
deriving Repr, DecidableEq

/-- The `ValidatedUrl` record of src/utils/url-validator.ts. -/
structure ValidatedUrlR where
  url : String
  status : Nat
  checkedAt : String
  isValid : Bool
  error : Option String
deriving Repr, DecidableEq

/-- Builds the result record from a received response, as in the tail of
`validateUrl`: 2xx is valid, everything else invalid. -/
def responseResult (url : String) (status : Nat) (checkedAt : String) : ValidatedUrlR :=
  let isValid := decide (200 ≤ status ∧ status < 300)
  { url := url, status := status, checkedAt := checkedAt, isValid := isValid,
    error := if isValid then none else some ("HTTP " ++ toString status) }

/-- `validateUrl` from src/utils/url-validator.ts: canonicalize, reject
non-allowlisted domains, then probe with HEAD falling back to GET; a network
failure of both probes is invalid with status 0. -/
def validateUrl (probes : ProbeEnv) (checkedAt : String) (rawUrl : String) : ValidatedUrlR :=
  let canonicalUrl := canonicalizeUrl rawUrl
  if !isDomainAllowed canonicalUrl then
    { url := canonicalUrl, status := 0, checkedAt := checkedAt, isValid := false,
      error := some "Domain not in allowlist" }
  else
    match probes.head with
    | .ok status => responseResult canonicalUrl status checkedAt
    | .err _ =>
      match probes.get with
      | .ok status => responseResult canonicalUrl status checkedAt
      | .err msg =>
        { url := canonicalUrl, status := 0, checkedAt := checkedAt, isValid := false,
          error := some ("Fetch failed: " ++ msg) }

/-! ## RSS item processing (src/infrastructure/source-fetcher.ts) -/

/-- An entry delivered by `rss-parser`; all fields possibly undefined. -/
structure RssItem where
  title : Option String
  link : Option String
  pubDate : Option String
  isoDate : Option String
deriving Repr, DecidableEq

/-- The JavaScript date runtime the fetcher uses: `parseDate` models
`new Date(s).getTime()` with `none` for `NaN` (an invalid date), `toIso`
models `Date.prototype.toISOString` on a valid date, `now` the current
epoch-milliseconds and `nowIso` its ISO rendering. -/
structure FetchEnv where
  parseDate : String → Option Int
  toIso : Int → String
  now : Int
  nowIso : String

/-- The value of `publishedAt.getTime()` in `processRssItem`:
`item.isoDate || item.pubDate` with JavaScript falsiness, an absent (or
falsy) date giving `new Date()` = now, a present one parsed by the Date
runtime (`none` = `NaN`). -/
def publishedTime (env : FetchEnv) (item : RssItem) : Option Int :=
  match jsOrStr item.isoDate item.pubDate with
  | some s => if s = "" then some env.now else env.parseDate s
  | none => some env.now

/-- The recency test of `processRssItem`: drop only when the timestamp is a
number (not `NaN`) and strictly older than the cutoff. -/
def freshnessDrop (cutoffTime : Int) (publishedAtTime : Option Int) : Bool :=
  match publishedAtTime with
  | some t => decide (t < cutoffTime)
  | none => false

/-- The recency filter of the older fetcher variant (`fetchRssFeed` of
unnamed part 009): keep when the re-parsed `published_at` is `NaN`,
otherwise keep exactly when it is at least the cutoff. -/
def rssRecencyKeep (cutoffTime : Int) (publishedAtTime : Option Int) : Bool :=
  match publishedAtTime with
  | none => true
  | some t => decide (t ≥ cutoffTime)

/-- `processRssItem` from src/infrastructure/source-fetcher.ts. Returns
`ok none` for an item the method filters out, `ok (some feed)` for a kept
item, and `error` when the body throws — which happens at
`publishedAt.toISOString()` when the publish date did not parse
(`RangeError: Invalid time value`). -/
def processRssItem (env : FetchEnv) (probes : ProbeEnv) (item : RssItem)
    (source : Source) (cutoffTime : Int) : Except String (Option ValidatedRawFeed) :=
  let rawLink := jsOrDefault item.link source.url
  let publishedAt := publishedTime env item
  if freshnessDrop cutoffTime publishedAt then Except.ok none
  else
    let canonicalUrl := canonicalizeUrl rawLink
    if !isDomainAllowed canonicalUrl then Except.ok none
    else
      let validation := validateUrl probes env.nowIso canonicalUrl
      if !validation.isValid then Except.ok none
      else
        let domain := match parseUrl canonicalUrl with
          | some u => hostnameOf u
          | none => ""
        match publishedAt with
        | none => Except.error "Invalid time value"
        | some t =>
          Except.ok (some
            { title := jsOrDefault (item.title.map trimStr) (source.name ++ " update"),
              source := source.name,
              source_url := validation.url,
              published_at := env.toIso t,
              domain := domain,
              status_code := validation.status,
              checked_at := validation.checkedAt })

/-- The per-item `try`/`catch` wrapping `processRssItem` inside
`fetchRssFeed`: a thrown error is logged and becomes `null`. -/
def processItemCaught (env : FetchEnv) (probes : ProbeEnv) (item : RssItem)
    (source : Source) (cutoffTime : Int) : Option ValidatedRawFeed :=
  match processRssItem env probes item source cutoffTime with
  | .ok v => v
  | .error _ => none

/-- The retention predicate of `fetchRssFeed`: status exactly 200 and an
allowlisted domain. -/
def retainValidItem (item : ValidatedRawFeed) : Bool :=
  item.status_code == 200 && isDomainAllowed item.source_url

/-- The item pipeline of `fetchRssFeed` (src/infrastructure/source-fetcher.ts):
cap to the first 50 entries, process each with a per-item catch, then keep
the non-null items that pass `retainValidItem`. Each entry is paired with the
outcomes of its reachability probes. -/
def fetchRssFeedItems (env : FetchEnv) (source : Source) (lookbackHours : Int)
    (items : List (RssItem × ProbeEnv)) : List ValidatedRawFeed :=
  let cutoffTime := env.now - lookbackHours * 3600000
  let feedItems := (items.take 50).map
    (fun p => processItemCaught env p.2 p.1 source cutoffTime)
  (feedItems.filterMap id).filter retainValidItem

/-- `fetchSource` from src/infrastructure/source-fetcher.ts, with the network
interaction summarised by its outcome: non-RSS sources yield nothing, and any
error thrown while fetching or parsing the feed is caught and mapped to an
empty list so that one failing source never aborts the scan. -/
def fetchSource (source : Source) (outcome : Except String (List ValidatedRawFeed)) :
    List ValidatedRawFeed :=
  if source.type ≠ "rss" then []
  else
    match outcome with
    | .ok items => items
    | .error _ => []

/-! ## Configuration (src/domain/source-config.ts) -/

structure ScanConfig where
  timezone : String
  scan_time : String
  lookback_hours : Int
deriving Repr, DecidableEq

structure Topic where
  name : String
  category : String
  priority : Int
  sources : List Source
deriving Repr, DecidableEq

structure SeverityRules where
  high : List String
  medium : List String
  low : List String
deriving Repr, DecidableEq

/-- The configuration the scan service reads; `impact_keywords` keeps the
insertion order `Object.entries` iterates in. The email block is
presentation-only and omitted. -/
structure SourceConfiguration where
  topics : List Topic
  scan_config : ScanConfig
  severity_rules : SeverityRules
  impact_keywords : List (String × List String)
deriving Repr, DecidableEq

/-! ## Report section records (src/domain/scan-result.ts) -/

inductive Severity where
  | high
  | medium
  | low
deriving Repr, DecidableEq

def severityRank : Severity → Nat
  | .high => 0
  | .medium => 1
  | .low => 2

def severityUpper : Severity → String
  | .high => "HIGH"
  | .medium => "MEDIUM"
  | .low => "LOW"

structure TopSignal where
  title : String
  why_it_matters : String
  impact : List String
  severity : Severity
  source_url : String
  published_at : String
  notes_for_actions : List String
deriving Repr, DecidableEq

structure TrendWatchItem where
  topic : String
  summary : String
  trajectory : String
  sources : List String
deriving Repr, DecidableEq

structure SecurityAlert where
  component : String
  cve : String
  cvss : String
  summary : String
  affected_versions : String
  fix_available : Bool
  source_url : String
deriving Repr, DecidableEq

structure AwsPlatformChange where
  service : String
  change : String
  likely_effect : String
  action_hint : String
deriving Repr, DecidableEq

structure AiTrend where
  item : String
  category : String
  summary : String
  impact : String
  source_url : String
  published_at : String
deriving Repr, DecidableEq

structure CorporateNewsItem where
  item : String
  type : String
  summary : String
  source_url : String
  published_at : String
deriving Repr, DecidableEq

structure DeveloperExperienceItem where
  pattern_or_tool : String
  update : String
  relevance_to_platform : String
deriving Repr, DecidableEq

structure ScanResult where
  date : String
  timezone : String
  top_signals : List TopSignal
  trend_watchlist : List TrendWatchItem
  security_alerts : List SecurityAlert
  aws_platform_changes : List AwsPlatformChange
  ai_trends : List AiTrend
  corporate_hims_hers : List CorporateNewsItem
  developer_experience : List DeveloperExperienceItem
  raw_feed : List RawFeed
deriving Repr, DecidableEq

/-! ## ScanService classification pipeline (unnamed part 018) -/

/-- `CategorizedFeed` of the classifying ScanService variant. Impact tags are
kept as strings, mirroring the `as ImpactTag` cast on configuration keys. -/
structure CategorizedFeed extends RawFeed where
  topic : String
  category : String
  priority : Int
  severity : Severity
  impacts : List String
deriving Repr, DecidableEq

/-- `determineSeverity`: first match in the high list wins, then medium,
else low; matching is case-insensitive substring containment. -/
def determineSeverity (config : SourceConfiguration) (content : String) : Severity :=
  if config.severity_rules.high.any (fun kw => includes (lowerStr content) (lowerStr kw)) then
    .high
  else if config.severity_rules.medium.any (fun kw => includes (lowerStr content) (lowerStr kw)) then
    .medium
  else
    .low

/-- `determineImpact`: collect every impact type one of whose keywords occurs
in the content, in configuration order, falling back to `Platform`. -/
def determineImpact (config : SourceConfiguration) (content : String) : List String :=
  let impacts := (config.impact_keywords.filter
    (fun p => p.2.any (fun kw => includes (lowerStr content) (lowerStr kw)))).map (fun p => p.1)
  if impacts = [] then ["Platform"] else impacts

def buildWhyItMatters (feed : CategorizedFeed) : String :=
  match feed.category with
  | "security" => "Security advisory detected—review for exposure and mitigations."
  | "aws_platform" => "Platform change may affect cloud workloads or operations."
  | "ai_platform" => "AI platform development that could influence architecture decisions."
  | "ai_healthcare" => "Healthcare AI update with potential regulatory or clinical impact."
  | "corporate" => "Corporate development relevant to organizational strategy."
  | "developer_experience" => "Developer experience insight impacting platform productivity."
  | "releases" => "Release update worth tracking for roadmap planning."
  | "standards" => "Standards update that could influence interoperability commitments."
  | _ => "Insight from " ++ feed.topic ++ "."

def buildLikelyEffect (feed : CategorizedFeed) : String :=
  match feed.severity with
  | .high => "High likelihood of immediate impact on platform workloads."
  | .medium => "Moderate impact expected—evaluate during upcoming sprint."
  | .low => "Low impact but worth awareness for roadmap alignment."

def inferCorporateType (title : String) : String :=
  let t := lowerStr title
  if includes t "10-k" || includes t "10-q" || includes t "8-k" || includes t "filing" then
    "filing"
  else if includes t "earnings" || includes t "results" || includes t "quarter" then
    "earnings"
  else if includes t "press" || includes t "launch" then
    "press"
  else
    "media"

/-- `charAt(0).toUpperCase() + slice(1)` on one word. -/
def capitalizeWord (s : String) : String :=
  match s.data with
  | [] => ""
  | c :: rest => String.mk (c.toUpper :: rest)

/-- `formatCategoryName`: split on underscores, capitalize each part, join
with spaces. -/
def formatCategoryName (category : String) : String :=
  String.intercalate " " ((splitOnChar '_' category.data).map (fun w => capitalizeWord (String.mk w)))

/-- Match `CVE-\d{4}-\d{4,7}` (case-insensitive) at the head of the list:
exactly four digits, a dash, then greedily four to seven digits. -/
def cveAt (cs : List Char) : Option (List Char) :=
  match cs with
  | c1 :: c2 :: c3 :: '-' :: rest =>
    if c1.toLower = 'c' && c2.toLower = 'v' && c3.toLower = 'e' then
      let d1 := rest.takeWhile Char.isDigit
      let r1 := rest.dropWhile Char.isDigit
      if d1.length = 4 then
        match r1 with
        | '-' :: r2 =>
          let d2 := r2.takeWhile Char.isDigit
          if 4 ≤ d2.length then some (['C', 'V', 'E', '-'] ++ d1 ++ '-' :: d2.take 7)
          else none
        | _ => none
      else none
    else none
  | _ => none

def extractCveL : List Char → Option (List Char)
  | [] => none
  | c :: rest =>
    match cveAt (c :: rest) with
    | some m => some m
    | none => extractCveL rest

/-- `extractCve`: first regex match of `CVE-\d{4}-\d{4,7}`, uppercased. -/
def extractCve (content : String) : Option String :=
  (extractCveL content.data).map String.mk

/-- `/fix|patch|update|upgrade/i.test(title)`. -/
def fixAvailableTest (title : String) : Bool :=
  ["fix", "patch", "update", "upgrade"].any (fun w => includes (lowerStr title) w)

/-- Stable insertion into an ascending list: walk past exactly the elements
strictly below `x`, so earlier-position elements stay ahead of equal ones. -/
def insertOrd (le : α → α → Bool) (x : α) : List α → List α
  | [] => [x]
  | y :: ys => if le y x && !le x y then y :: insertOrd le x ys else x :: y :: ys

/-- Stable sort by a total comparator switch; models
`Array.prototype.sort`, which ECMAScript requires to be stable, on the
comparator's induced preorder. -/
def stableSort (le : α → α → Bool) : List α → List α
  | [] => []
  | x :: xs => insertOrd le x (stableSort le xs)

/-- The comparator of `extractTopSignals` as a sort switch: ascending
severity rank, then ascending priority (the JavaScript sort is stable). -/
def topSignalLe (a b : CategorizedFeed) : Bool :=
  if severityRank a.severity ≠ severityRank b.severity then
    decide (severityRank a.severity < severityRank b.severity)
  else
    decide (a.priority ≤ b.priority)

/-- `extractTopSignals`: keep feeds of priority at most 2, sort by severity
then priority, cap at five, and shape into `TopSignal` records. -/
def extractTopSignals (feeds : List CategorizedFeed) : List TopSignal :=
  ((stableSort topSignalLe (feeds.filter (fun f => decide (f.priority ≤ 2)))).take 5).map
    (fun feed =>
      { title := feed.title,
        why_it_matters := buildWhyItMatters feed,
        impact := feed.impacts,
        severity := feed.severity,
        source_url := feed.source_url,
        published_at := feed.published_at,
        notes_for_actions := [] })

/-- `extractSecurityAlerts`: one alert per feed of category `security`. -/
def extractSecurityAlerts (feeds : List CategorizedFeed) : List SecurityAlert :=
  (feeds.filter (fun f => f.category == "security")).map
    (fun feed =>
      { component := feed.source,
        cve := (extractCve feed.title).getD "N/A",
        cvss := "N/A",
        summary := feed.title,
        affected_versions := "See source",
        fix_available := fixAvailableTest feed.title,
        source_url := feed.source_url })

/-- `extractAwsPlatformChanges`: one change per feed of category
`aws_platform`. -/
def extractAwsPlatformChanges (feeds : List CategorizedFeed) : List AwsPlatformChange :=
  (feeds.filter (fun f => f.category == "aws_platform")).map
    (fun feed =>
      { service := feed.source,
        change := feed.title,
        likely_effect := buildLikelyEffect feed,
        action_hint := "Review " ++ feed.source_url ++ " for potential actions in " ++ feed.topic ++ "." })

/-- `extractAiTrends`: one trend per feed of category `ai_healthcare` or
`ai_platform`. -/
def extractAiTrends (feeds : List CategorizedFeed) : List AiTrend :=
  (feeds.filter (fun f => f.category == "ai_healthcare" || f.category == "ai_platform")).map
    (fun feed =>
      { item := feed.title,
        category := if feed.category == "ai_healthcare" then "clinical" else "platform",
        summary := buildWhyItMatters feed,
        impact :=
          (let joined := String.intercalate ", " feed.impacts
           if joined = "" then "Platform" else joined),
        source_url := feed.source_url,
        published_at := feed.published_at })

/-- `extractCorporateNews`: one item per feed of category `corporate`. -/
def extractCorporateNews (feeds : List CategorizedFeed) : List CorporateNewsItem :=
  (feeds.filter (fun f => f.category == "corporate")).map
    (fun feed =>
      { item := feed.title,
        type := inferCorporateType feed.title,
        summary := buildWhyItMatters feed,
        source_url := feed.source_url,
        published_at := feed.published_at })

/-- `extractDeveloperExperience`: one item per feed of category
`developer_experience`. -/
def extractDeveloperExperience (feeds : List CategorizedFeed) : List DeveloperExperienceItem :=
  (feeds.filter (fun f => f.category == "developer_experience")).map
    (fun feed =>
      { pattern_or_tool := feed.title,
        update := buildWhyItMatters feed,
        relevance_to_platform :=
          "Sourced from " ++ feed.source ++ ". " ++ severityUpper feed.severity ++ " priority insight." })

def excludedCategories : List String :=
  ["security", "aws_platform", "ai_healthcare", "ai_platform", "corporate", "developer_experience"]

/-- Insertion into the grouping `Map` of `extractTrendWatchlist`, preserving
first-occurrence key order. -/
def groupInsert (acc : List (String × List CategorizedFeed)) (feed : CategorizedFeed) :
    List (String × List CategorizedFeed) :=
  if acc.any (fun p => p.1 == feed.category) then
    acc.map (fun p => if p.1 == feed.category then (p.1, p.2 ++ [feed]) else p)
  else
    acc ++ [(feed.category, [feed])]

/-- JavaScript `Array.from(new Set(xs))`: first-occurrence deduplication. -/
def dedupFirst (xs : List String) : List String :=
  xs.foldl (fun acc s => if acc.contains s then acc else acc ++ [s]) []

/-- `extractTrendWatchlist`: group the non-excluded categories and summarise
each group. -/
def extractTrendWatchlist (feeds : List CategorizedFeed) : List TrendWatchItem :=
  let grouped := (feeds.filter (fun f => !excludedCategories.contains f.category)).foldl groupInsert []
  grouped.map (fun p =>
    let n := p.2.length
    { topic := formatCategoryName p.1,
      summary := toString n ++ " new items from " ++ formatCategoryName p.1 ++ " sources.",
      trajectory := if 3 < n then "rising" else if 1 < n then "stable" else "fading",
      sources := dedupFirst (p.2.map (fun item => item.source)) })

/-- The per-topic annotation step of `performScan`: classify each fetched
feed against `title + " " + topic.name`. -/
def annotateFeeds (config : SourceConfiguration) (topic : Topic) (feeds : List RawFeed) :
    List CategorizedFeed :=
  feeds.map (fun feed =>
    let content := feed.title ++ " " ++ topic.name
    { toRawFeed := feed,
      topic := topic.name,
      category := topic.category,
      priority := topic.priority,
      severity := determineSeverity config content,
      impacts := determineImpact config content })

/-- One `fetchSource` invocation of the scan loop: its topic, its source and
the outcome of the awaited fetch (`error` models a rejected promise, caught
by the loop's `try`/`catch`). -/
structure FetchTask where
  topic : Topic
  src : Source
  outcome : Except String (List RawFeed)

/-- The fetch loop's contribution of one task to `allFeeds`: a failed fetch
is logged and contributes nothing. -/
def taskFeeds (t : FetchTask) : List RawFeed :=
  match t.outcome with
  | .ok feeds => feeds
  | .error _ => []

/-- `performScan` of the classifying ScanService (unnamed part 018), with the
awaited fetches summarised by the task list: accumulate the raw feeds,
annotate them per topic, and build every report section. -/
def performScan (config : SourceConfiguration) (date : String) (tasks : List FetchTask) :
    ScanResult :=
  let allFeeds := (tasks.map taskFeeds).flatten
  let categorizedFeeds := (tasks.map (fun t => annotateFeeds config t.topic (taskFeeds t))).flatten
  { date := date,
    timezone := config.scan_config.timezone,
    top_signals := extractTopSignals categorizedFeeds,
    trend_watchlist := extractTrendWatchlist categorizedFeeds,
    security_alerts := extractSecurityAlerts categorizedFeeds,
    aws_platform_changes := extractAwsPlatformChanges categorizedFeeds,
    ai_trends := extractAiTrends categorizedFeeds,
    corporate_hims_hers := extractCorporateNews categorizedFeeds,
    developer_experience := extractDeveloperExperience categorizedFeeds,
    raw_feed := allFeeds }

/-! ## Merge stage (the `allFeeds.push(...feeds)` loop shared by the
performScan variants in unnamed part 020 and
src/application/scan-service.ts) -/

/-- The merge stage: successive `allFeeds.push(...feeds)` over the per-source
item lists. -/
def mergeFeeds (feedLists : List (List RawFeed)) : List RawFeed :=
  feedLists.foldl (fun acc feeds => acc ++ feeds) []

/-! ## Research service (src/application/research-service.ts) -/

/-- `Partial<ScanResult>` as received from the research collaborator; every
section may be absent. This uses the current taxonomy, whose corporate
section is `corporate_competitors`. -/
structure PartialScanResult where
  date : Option String := none
  timezone : Option String := none
  top_signals : Option (List TopSignal) := none
  trend_watchlist : Option (List TrendWatchItem) := none
  security_alerts : Option (List SecurityAlert) := none
  aws_platform_changes : Option (List AwsPlatformChange) := none
  ai_trends : Option (List AiTrend) := none
  corporate_competitors : Option (List CorporateNewsItem) := none
  developer_experience : Option (List DeveloperExperienceItem) := none
  raw_feed : Option (List RawFeed) := none
deriving Repr, DecidableEq

/-- `performResearch` from src/application/research-service.ts, with the
Perplexity call summarised by its outcome; the echoed query string is
presentation-only and omitted. On any error the method substitutes the
all-empty report stamped with the given date and timezone. -/
def performResearch (date timezone : String)
    (searchOutcome : Except String PartialScanResult) : PartialScanResult :=
  match searchOutcome with
  | .ok report => report
  | .error _ =>
    { date := some date,
      timezone := some timezone,
      top_signals := some [],
      trend_watchlist := some [],
      security_alerts := some [],
      aws_platform_changes := some [],
      ai_trends := some [],
      corporate_competitors := some [],
      developer_experience := some [],
      raw_feed := some [] }

/-! ## Concrete inputs used by individual claim theorems -/

/-- A minimal security-category feed. -/
def secCxFeed (n : String) : CategorizedFeed :=
  { title := n, source := "s", source_url := "u", published_at := "d",
    topic := "Security", category := "security", priority := 1,
    severity := .low, impacts := [] }

def secCxFeeds : List CategorizedFeed :=
  [secCxFeed "a", secCxFeed "b", secCxFeed "c", secCxFeed "d", secCxFeed "e", secCxFeed "f"]

/-- A later rediscovery of a story. -/
def dupLater : RawFeed :=
  { title := "Story (rediscovered)", source := "src1",
    source_url := "https://x.com/story", published_at := "2026-10-11T00:00:00.000Z" }

/-- The earlier publication of the same story (same canonical URL). -/
def dupEarlier : RawFeed :=
  { title := "Story", source := "src2",
    source_url := "https://x.com/story", published_at := "2026-10-01T00:00:00.000Z" }

def c3Src : Source :=
  { name := "NEJM AI", url := "https://ai.nejm.org", rss_url := none, type := "rss", keywords := [] }

def c3Topic : Topic :=
  { name := "AI Healthcare", category := "ai_healthcare", priority := 3, sources := [c3Src] }

def c3Config : SourceConfiguration :=
  { topics := [c3Topic],
    scan_config := { timezone := "Europe/London", scan_time := "05:00", lookback_hours := 24 },
    severity_rules := { high := [], medium := [], low := [] },
    impact_keywords := [] }

def c3Feed : RawFeed :=
  { title := "AI study", source := "NEJM AI",
    source_url := "https://ai.nejm.org/a", published_at := "2026-10-12" }

/-- A run of the classification pipeline whose only selected item comes from
the health cluster. -/
def c3Run : ScanResult :=
  performScan c3Config "2026-10-12" [⟨c3Topic, c3Src, .ok [c3Feed]⟩]

/-- An RSS source whose configured URL is allowlisted. -/
def awsSource : Source :=
  { name := "AWS", url := "https://aws.amazon.com", rss_url := none, type := "rss", keywords := [] }

/-- A Date runtime in which exactly the string "bad" fails to parse. -/
def cxEnv : FetchEnv :=
  { parseDate := fun s => if s = "bad" then none else some 100,
    toIso := fun _ => "1970-01-01T00:00:00.100Z",
    now := 100, nowIso := "now-iso" }

/-- An RSS entry with an allowlisted link and an unparseable publish date. -/
def badDateItem : RssItem :=
  { title := some "Security advisory", link := some "https://aws.amazon.com/x",
    pubDate := none, isoDate := some "bad" }

/-- A fresh, well-formed RSS entry with an allowlisted link. -/
def freshItem : RssItem :=
  { title := some "T", link := some "https://aws.amazon.com/x",
    pubDate := none, isoDate := some "2026-10-12" }

/-- An RSS entry missing both its title and its link. -/
def noFieldsItem : RssItem :=
  { title := none, link := none, pubDate := none, isoDate := some "2026-10-12" }

def okProbes : ProbeEnv := ⟨.ok 200, .ok 200⟩

/-! ## Cluster-cap accounting (spec section 4.5 step 5)

The spec's health cluster is the set of health-related source categories; in
the classification pipeline items fetched under category `ai_healthcare` are
the ones that reach a report section (`ai_trends`, shaped with trend category
`clinical`). -/

/-- Total number of selected items across all report sections of a run. -/
def totalSelected (r : ScanResult) : Nat :=
  r.top_signals.length + r.trend_watchlist.length + r.security_alerts.length +
  r.aws_platform_changes.length + r.ai_trends.length + r.corporate_hims_hers.length +
  r.developer_experience.length

/-- Number of selected items drawn from the health cluster: `ai_trends`
entries shaped from `ai_healthcare` feeds (trend category `clinical`). -/
def healthSelected (r : ScanResult) : Nat :=
  (r.ai_trends.filter (fun t => t.category == "clinical")).length

/-! ## Helper lemmas -/

theorem foldl_append_eq_flatten (acc : List α) (ls : List (List α)) :
    ls.foldl (fun a l => a ++ l) acc = acc ++ ls.flatten := by
  induction ls generalizing acc with
  | nil => simp
  | cons l ls ih => simp [List.foldl_cons, ih, List.append_assoc]

theorem countP_flatten_eq_sum (p : α → Bool) (ls : List (List α)) :
    (ls.flatten.countP p) = (ls.map (fun l => l.countP p)).sum := by
  induction ls with
  | nil => simp
  | cons l ls ih => simp [List.countP_append, ih]

/-! ## Round-trip lemmas for the URL model -/

theorem takeWhile_append_stop (p : Char → Bool) (l₁ : List Char) (x : Char) (l₂ : List Char)
    (h : l₁.all p = true) (hx : p x = false) :
    (l₁ ++ x :: l₂).takeWhile p = l₁ ∧ (l₁ ++ x :: l₂).dropWhile p = x :: l₂ := by
  induction l₁ with
  | nil => simp [List.takeWhile_cons, List.dropWhile_cons, hx]
  | cons c cs ih =>
    simp only [List.all_cons, Bool.and_eq_true] at h
    have h2 := ih h.2
    simp [List.takeWhile_cons, List.dropWhile_cons, h.1, h2.1, h2.2]

theorem takeWhile_all_self (p : Char → Bool) (l : List Char) (h : l.all p = true) :
    l.takeWhile p = l ∧ l.dropWhile p = [] := by
  induction l with
  | nil => simp
  | cons c cs ih =>
    simp only [List.all_cons, Bool.and_eq_true] at h
    have h2 := ih h.2
    simp [List.takeWhile_cons, List.dropWhile_cons, h.1, h2.1, h2.2]

theorem splitOnChar_ne_nil (sep : Char) (l : List Char) : splitOnChar sep l ≠ [] := by
  induction l with
  | nil => simp [splitOnChar]
  | cons c cs ih =>
    unfold splitOnChar
    cases h : splitOnChar sep cs with
    | nil => simp
    | cons s ss => by_cases hc : c = sep <;> simp [hc]

theorem splitOnChar_no_sep (sep : Char) (l : List Char)
    (h : l.all (fun c => c ≠ sep) = true) : splitOnChar sep l = [l] := by
  induction l with
  | nil => rfl
  | cons c cs ih =>
    simp only [List.all_cons, Bool.and_eq_true, decide_eq_true_eq] at h
    unfold splitOnChar
    rw [ih (by simpa using h.2)]
    simp [h.1]

theorem splitOnChar_cons (sep c : Char) (cs : List Char) :
    splitOnChar sep (c :: cs) =
      match splitOnChar sep cs with
      | [] => [[c]]
      | s :: ss => if c = sep then [] :: s :: ss else (c :: s) :: ss := rfl

theorem splitOnChar_append_sep (sep : Char) (l r : List Char)
    (h : l.all (fun c => c ≠ sep) = true) :
    splitOnChar sep (l ++ sep :: r) = l :: splitOnChar sep r := by
  induction l with
  | nil =>
    rw [List.nil_append, splitOnChar_cons]
    cases hres : splitOnChar sep r with
    | nil => exact absurd hres (splitOnChar_ne_nil sep r)
    | cons s ss => simp
  | cons c cs ih =>
    simp only [List.all_cons, Bool.and_eq_true, decide_eq_true_eq] at h
    rw [List.cons_append, splitOnChar_cons, ih (by simpa using h.2)]
    simp [h.1]

theorem splitOnChar_joinAmp (segs : List (List Char)) (hne : segs ≠ [])
    (hsep : ∀ s ∈ segs, s.all (fun c => c ≠ '&') = true) :
    splitOnChar '&' (joinAmp segs) = segs := by
  induction segs with
  | nil => exact absurd rfl hne
  | cons s rest ih =>
    cases rest with
    | nil => exact splitOnChar_no_sep '&' s (hsep s (by simp))
    | cons s2 rest2 =>
      show splitOnChar '&' (s ++ '&' :: joinAmp (s2 :: rest2)) = s :: s2 :: rest2
      rw [splitOnChar_append_sep '&' s _ (hsep s (by simp))]
      rw [ih (by simp) (fun t ht => hsep t (by simp [ht]))]

theorem all_mono {p q : Char → Bool} (l : List Char) (h : ∀ c, p c = true → q c = true)
    (hl : l.all p = true) : l.all q = true := by
  simp only [List.all_eq_true] at *
  exact fun c hc => h c (hl c hc)

theorem isQVChar_ne_amp {c : Char} (h : isQVChar c = true) : c ≠ '&' := by
  intro heq
  subst heq
  exact absurd h (by decide)

theorem isQVChar_ne_eq {c : Char} (h : isQVChar c = true) : c ≠ '=' := by
  intro heq
  subst heq
  exact absurd h (by decide)

theorem wfQueryPair_name_props {p : List Char × List Char} (h : wfQueryPair p = true) :
    p.1.all (fun c => c ≠ '=') = true ∧ p.1.all (fun c => c ≠ '&') = true ∧
    p.2.all (fun c => c ≠ '&') = true := by
  simp only [wfQueryPair, Bool.and_eq_true] at h
  refine ⟨all_mono p.1 (fun c hc => ?_) h.1, all_mono p.1 (fun c hc => ?_) h.1,
    all_mono p.2 (fun c hc => ?_) h.2⟩
  · exact decide_eq_true (isQVChar_ne_eq hc)
  · exact decide_eq_true (isQVChar_ne_amp hc)
  · simp only [Bool.or_eq_true] at hc
    rcases hc with hc | hc
    · exact decide_eq_true (isQVChar_ne_amp hc)
    · simp only [decide_eq_true_eq] at hc
      subst hc
      decide

theorem splitEq_serializePair (n v : List Char) (h : n.all (fun c => c ≠ '=') = true) :
    splitEq (serializePair (n, v)) = (n, v) := by
  unfold splitEq serializePair
  have hs := takeWhile_append_stop (fun c => c ≠ '=') n '=' v h (by simp)
  simp only [hs.1, hs.2]

theorem serializePair_ne_nil (p : List Char × List Char) : serializePair p ≠ [] := by
  unfold serializePair
  simp

theorem serializePair_amp_free {p : List Char × List Char} (h : wfQueryPair p = true) :
    (serializePair p).all (fun c => c ≠ '&') = true := by
  have hp := wfQueryPair_name_props h
  unfold serializePair
  simp only [List.all_append, List.all_cons, Bool.and_eq_true]
  exact ⟨hp.2.1, by decide, hp.2.2⟩

theorem parseQuery_serializeQuery (ps : List (List Char × List Char))
    (h : ps.all wfQueryPair = true) : parseQuery (serializeQuery ps) = ps := by
  cases hps : ps with
  | nil => rfl
  | cons p rest =>
    subst hps
    unfold parseQuery serializeQuery
    rw [splitOnChar_joinAmp (((p :: rest).map serializePair)) (by simp)
      (by
        intro s hs
        rcases List.mem_map.mp hs with ⟨q, hq, rfl⟩
        exact serializePair_amp_free (by simp only [List.all_eq_true] at h; exact h q hq))]
    rw [List.filter_eq_self.mpr
      (by
        intro s hs
        rcases List.mem_map.mp hs with ⟨q, _, rfl⟩
        simpa using serializePair_ne_nil q)]
    rw [List.map_map]
    have hid : ∀ q ∈ p :: rest, (splitEq ∘ serializePair) q = id q := by
      intro q hq
      have hw : wfQueryPair q = true := by
        simp only [List.all_eq_true] at h
        exact h q hq
      have hn := (wfQueryPair_name_props hw).1
      cases q with
      | mk n v => exact splitEq_serializePair n v hn
    rw [List.map_congr_left hid, List.map_id]

theorem serializeQuery_chars (ps : List (List Char × List Char))
    (h : ps.all wfQueryPair = true) : (serializeQuery ps).all isQueryRawChar = true := by
  unfold serializeQuery
  induction ps with
  | nil => rfl
  | cons p rest ih =>
    simp only [List.all_cons, Bool.and_eq_true] at h
    have hp : (serializePair p).all isQueryRawChar = true := by
      unfold serializePair
      simp only [List.all_append, List.all_cons, Bool.and_eq_true]
      simp only [wfQueryPair, Bool.and_eq_true] at h
      refine ⟨all_mono p.1 (fun c hc => ?_) h.1.1, by decide,
        all_mono p.2 (fun c hc => ?_) h.1.2⟩
      · simp [isQueryRawChar, hc]
      · simp only [Bool.or_eq_true] at hc
        rcases hc with hc | hc
        · simp [isQueryRawChar, hc]
        · simp only [decide_eq_true_eq] at hc
          subst hc
          decide
    cases rest with
    | nil => exact hp
    | cons q rest2 =>
      show ((serializePair p ++ '&' :: joinAmp ((q :: rest2).map serializePair)).all
        isQueryRawChar) = true
      simp only [List.all_append, List.all_cons, Bool.and_eq_true]
      exact ⟨hp, by decide, ih h.2⟩

theorem mem_splitOnChar_all {sep : Char} {p : Char → Bool} {l : List Char}
    (hl : l.all p = true) : ∀ s ∈ splitOnChar sep l, s.all p = true := by
  induction l with
  | nil =>
    intro s hs
    simp only [splitOnChar] at hs
    simp only [List.mem_singleton] at hs
    subst hs
    rfl
  | cons c cs ih =>
    simp only [List.all_cons, Bool.and_eq_true] at hl
    intro s hs
    rw [splitOnChar_cons] at hs
    rcases hres : splitOnChar sep cs with _ | ⟨t, ts⟩
    · exact absurd hres (splitOnChar_ne_nil sep cs)
    · rw [hres] at hs
      by_cases hc : c = sep
      · simp only [hc, if_pos rfl] at hs
        rcases List.mem_cons.mp hs with rfl | hs
        · rfl
        · exact ih hl.2 s (by rw [hres]; exact hs)
      · simp only [if_neg hc] at hs
        rcases List.mem_cons.mp hs with rfl | hs
        · have ht : t.all p = true := ih hl.2 t (by rw [hres]; simp)
          simp [hl.1, ht]
        · exact ih hl.2 s (by rw [hres]; simp [hs])

theorem mem_splitOnChar_sep_free {sep : Char} {l : List Char} :
    ∀ s ∈ splitOnChar sep l, s.all (fun c => c ≠ sep) = true := by
  induction l with
  | nil =>
    intro s hs
    simp only [splitOnChar, List.mem_singleton] at hs
    subst hs
    rfl
  | cons c cs ih =>
    intro s hs
    rw [splitOnChar_cons] at hs
    rcases hres : splitOnChar sep cs with _ | ⟨t, ts⟩
    · exact absurd hres (splitOnChar_ne_nil sep cs)
    · rw [hres] at hs
      by_cases hc : c = sep
      · simp only [hc, if_pos rfl] at hs
        rcases List.mem_cons.mp hs with rfl | hs
        · rfl
        · exact ih s (by rw [hres]; exact hs)
      · simp only [if_neg hc] at hs
        rcases List.mem_cons.mp hs with rfl | hs
        · have ht : t.all (fun c => c ≠ sep) = true := ih t (by rw [hres]; simp)
          simp only [List.all_cons, Bool.and_eq_true]
          exact ⟨by simpa using hc, ht⟩
        · exact ih s (by rw [hres]; simp [hs])

theorem dropWhile_head_false {p : Char → Bool} {l : List Char} {x : Char} {xs : List Char}
    (h : l.dropWhile p = x :: xs) : p x = false := by
  induction l with
  | nil => simp at h
  | cons c cs ih =>
    rw [List.dropWhile_cons] at h
    by_cases hc : p c = true
    · rw [if_pos hc] at h
      exact ih h
    · rw [if_neg hc] at h
      cases h
      simpa using hc

theorem parseQuery_wf {q : List Char} (h : q.all isQueryRawChar = true) :
    (parseQuery q).all wfQueryPair = true := by
  unfold parseQuery
  rw [List.all_eq_true]
  intro p hp
  rcases List.mem_map.mp hp with ⟨seg, hseg, rfl⟩
  have hseg' := List.mem_filter.mp hseg
  have hraw : seg.all isQueryRawChar = true := mem_splitOnChar_all h seg hseg'.1
  have hamp : seg.all (fun c => c ≠ '&') = true := mem_splitOnChar_sep_free seg hseg'.1
  unfold splitEq wfQueryPair
  have hname : (seg.takeWhile (fun c => c ≠ '=')).all isQVChar = true := by
    rw [List.all_eq_true]
    intro c hc
    have hcseg : c ∈ seg := (List.takeWhile_sublist (l := seg) (p := fun c => c ≠ '=')).subset hc
    have h1 : isQueryRawChar c = true := (List.all_eq_true.mp hraw) c hcseg
    have h2 : (fun c => decide (c ≠ '&')) c = true := (List.all_eq_true.mp hamp) c hcseg
    have h3 := List.all_takeWhile (p := fun c => c ≠ '=') (l := seg)
    have h4 : (fun c => decide (c ≠ '=')) c = true := (List.all_eq_true.mp h3) c hc
    simp only [decide_eq_true_eq] at h2 h4
    simp only [isQueryRawChar, Bool.or_eq_true] at h1
    rcases h1 with (h1 | h1) | h1
    · exact h1
    · exact absurd (by simpa using h1) h2
    · exact absurd (by simpa using h1) h4
  have hval : ∀ v, seg.dropWhile (fun c => c ≠ '=') = '=' :: v →
      v.all (fun c => isQVChar c || c = '=') = true := by
    intro v hv
    rw [List.all_eq_true]
    intro c hc
    have hcseg : c ∈ seg := (List.dropWhile_suffix (l := seg) (fun c => c ≠ '=')).subset
      (by rw [hv]; simp [hc])
    have h1 : isQueryRawChar c = true := (List.all_eq_true.mp hraw) c hcseg
    have h2 : (fun c => decide (c ≠ '&')) c = true := (List.all_eq_true.mp hamp) c hcseg
    simp only [decide_eq_true_eq] at h2
    simp only [isQueryRawChar, Bool.or_eq_true] at h1
    rcases h1 with (h1 | h1) | h1
    · simp [h1]
    · exact absurd (by simpa using h1) h2
    · simp only [decide_eq_true_eq] at h1
      simp [h1]
  rcases hdrop : seg.dropWhile (fun c => c ≠ '=') with _ | ⟨e, v⟩
  · simp only [hdrop, Bool.and_eq_true]
    exact ⟨hname, rfl⟩
  · have hef : (fun c => decide (c ≠ '=')) e = false := dropWhile_head_false hdrop
    have he : e = '=' := by simpa using hef
    subst he
    simp only [hdrop, Bool.and_eq_true]
    exact ⟨hname, hval v hdrop⟩

theorem parseUrl_serializeUrl (u : UrlModel) (h : UrlWfB u = true) :
    parseUrl (serializeUrl u) = some u := by
  obtain ⟨sch, host, path, query⟩ := u
  simp only [UrlWfB] at h
  by_cases hsp : isSpecial sch = true
  · rw [if_pos hsp] at h
    simp only [Bool.and_eq_true, decide_eq_true_eq, beq_iff_eq] at h
    obtain ⟨⟨⟨⟨⟨hA, hB⟩, hC⟩, hD⟩, ⟨⟨⟨hE1, hE2⟩, hE3⟩, hE4⟩⟩, hF⟩ := h
    cases path with
    | nil => exact absurd rfl hE4
    | cons p0 ptail =>
      have hp0 : p0 = '/' := by simpa using hE3
      subst hp0
      cases query with
      | none =>
        have hser : serializeUrl ⟨sch, host, '/' :: ptail, none⟩
            = String.mk (sch ++ ':' :: '/' :: '/' :: (host ++ '/' :: ptail)) := by
          simp [serializeUrl, hsp]
        rw [hser]
        unfold parseUrl
        simp only [List.cons_append, List.append_assoc]
        have htw := takeWhile_append_stop isSchemeChar sch ':'
          ('/' :: '/' :: (host ++ '/' :: ptail)) hC (by decide)
        rw [htw.1, htw.2, if_neg hA, hB]
        simp only [Bool.not_true, Bool.false_eq_true, if_false, if_pos hsp]
        have htw2 := takeWhile_append_stop isHostChar host '/' ptail hE2 (by decide)
        rw [htw2.1, htw2.2, if_neg hE1]
        have htw3 := takeWhile_all_self isPathChar ('/' :: ptail) hD
        rw [htw3.1, htw3.2]
        rfl
      | some ps =>
        simp only [] at hF
        have hser : serializeUrl ⟨sch, host, '/' :: ptail, some ps⟩
            = String.mk (sch ++ ':' :: '/' :: '/' ::
                (host ++ '/' :: (ptail ++ '?' :: serializeQuery ps))) := by
          simp [serializeUrl, hsp, List.cons_append, List.append_assoc]
        rw [hser]
        unfold parseUrl
        simp only [List.cons_append, List.append_assoc]
        have htw := takeWhile_append_stop isSchemeChar sch ':'
          ('/' :: '/' :: (host ++ '/' :: (ptail ++ '?' :: serializeQuery ps))) hC (by decide)
        rw [htw.1, htw.2, if_neg hA, hB]
        simp only [Bool.not_true, Bool.false_eq_true, if_false, if_pos hsp]
        have htw2 := takeWhile_append_stop isHostChar host '/'
          (ptail ++ '?' :: serializeQuery ps) hE2 (by decide)
        rw [htw2.1, htw2.2, if_neg hE1]
        have htw3 := takeWhile_append_stop isPathChar ('/' :: ptail) '?'
          (serializeQuery ps) hD (by decide)
        simp only [List.cons_append] at htw3
        rw [htw3.1, htw3.2]
        simp only []
        simp [serializeQuery_chars ps hF, parseQuery_serializeQuery ps hF]
  · rw [if_neg hsp] at h
    simp only [Bool.and_eq_true, decide_eq_true_eq, beq_iff_eq, Bool.not_eq_true,
      beq_eq_false_iff_ne, ne_eq] at h
    obtain ⟨⟨⟨⟨⟨hA, hB⟩, hC⟩, hD⟩, ⟨hE1, hE2⟩⟩, hF⟩ := h
    subst hE1
    cases query with
    | none =>
      have hser : serializeUrl ⟨sch, [], path, none⟩ = String.mk (sch ++ ':' :: path) := by
        simp [serializeUrl, hsp]
      rw [hser]
      unfold parseUrl
      simp only [List.cons_append, List.append_assoc]
      have htw := takeWhile_append_stop isSchemeChar sch ':' path hC (by decide)
      rw [htw.1, htw.2, if_neg hA, hB]
      simp only [Bool.not_true, Bool.false_eq_true, if_false, if_neg hsp]
      cases path with
      | nil => rfl
      | cons p0 pt =>
        have hp0 : p0 ≠ '/' := by simpa using hE2
        split
        · rename_i l heq
          exact absurd (by injection heq) hp0
        · have htw2 := takeWhile_all_self isPathChar (p0 :: pt) hD
          rw [htw2.1, htw2.2]
    | some ps =>
      simp only [] at hF
      have hser : serializeUrl ⟨sch, [], path, some ps⟩
          = String.mk (sch ++ ':' :: (path ++ '?' :: serializeQuery ps)) := by
        simp [serializeUrl, hsp]
      rw [hser]
      unfold parseUrl
      simp only [List.cons_append, List.append_assoc]
      have htw := takeWhile_append_stop isSchemeChar sch ':' (path ++ '?' :: serializeQuery ps)
        hC (by decide)
      rw [htw.1, htw.2, if_neg hA, hB]
      simp only [Bool.not_true, Bool.false_eq_true, if_false, if_neg hsp]
      cases path with
      | nil =>
        simp only [List.nil_append]
        have htw2 := takeWhile_append_stop isPathChar [] '?' (serializeQuery ps)
          (by simp) (by decide)
        simp only [List.nil_append] at htw2
        rw [htw2.1, htw2.2]
        simp [serializeQuery_chars ps hF, parseQuery_serializeQuery ps hF]
      | cons p0 pt =>
        have hp0 : p0 ≠ '/' := by simpa using hE2
        split
        · rename_i l heq
          exact absurd (by injection heq) hp0
        · have htw2 := takeWhile_append_stop isPathChar (p0 :: pt) '?' (serializeQuery ps)
            hD (by decide)
          rw [htw2.1, htw2.2]
          simp [serializeQuery_chars ps hF, parseQuery_serializeQuery ps hF]

theorem takeWhile_cons_slash (t : List Char) :
    List.takeWhile isPathChar ('/' :: t) = '/' :: List.takeWhile isPathChar t := by
  rw [List.takeWhile_cons, if_pos (by decide)]

theorem parseUrl_wf {s : String} {u : UrlModel} (h : parseUrl s = some u) :
    UrlWfB u = true := by
  unfold parseUrl at h
  simp only [] at h
  split at h
  · exact absurd h (by simp)
  · rename_i hne
    split at h
    · exact absurd h (by simp)
    · rename_i hhead
      simp only [Bool.not_eq_true', Bool.not_eq_false] at hhead
      split at h
      case h_2 => exact absurd h (by simp)
      case h_1 r1 heq1 =>
        split at h
        · rename_i hsp
          split at h
          case h_2 => exact absurd h (by simp)
          case h_1 r2 heq2 =>
            split at h
            · exact absurd h (by simp)
            · rename_i hhostne
              split at h
              case h_1 heq3 =>
                injection h with h'
                subst h'
                simp only [UrlWfB, if_pos hsp, Bool.and_eq_true, decide_eq_true_eq]
                refine ⟨⟨⟨⟨⟨hne, hhead⟩, List.all_takeWhile⟩, by decide⟩,
                  ⟨⟨⟨hhostne, List.all_takeWhile⟩, by decide⟩, by decide⟩⟩, trivial⟩
              case h_2 q heq3 =>
                split at h
                · rename_i hq
                  injection h with h'
                  subst h'
                  simp only [UrlWfB, if_pos hsp, Bool.and_eq_true, decide_eq_true_eq]
                  refine ⟨⟨⟨⟨⟨hne, hhead⟩, List.all_takeWhile⟩, by decide⟩,
                    ⟨⟨⟨hhostne, List.all_takeWhile⟩, by decide⟩, by decide⟩⟩, ?_⟩
                  exact parseQuery_wf hq
                · exact absurd h (by simp)
              case h_3 c3 heq3 =>
                split at h
                case h_1 heq4 =>
                  injection h with h'
                  subst h'
                  simp only [UrlWfB, if_pos hsp, Bool.and_eq_true, decide_eq_true_eq]
                  rw [heq3, takeWhile_cons_slash]
                  refine ⟨⟨⟨⟨⟨hne, hhead⟩, List.all_takeWhile⟩, ?_⟩,
                    ⟨⟨⟨hhostne, List.all_takeWhile⟩, by simp⟩, by simp⟩⟩, trivial⟩
                  · rw [← takeWhile_cons_slash, ← heq3]
                    exact List.all_takeWhile
                case h_2 q heq4 =>
                  split at h
                  · rename_i hq
                    injection h with h'
                    subst h'
                    simp only [UrlWfB, if_pos hsp, Bool.and_eq_true, decide_eq_true_eq]
                    rw [heq3, takeWhile_cons_slash]
                    refine ⟨⟨⟨⟨⟨hne, hhead⟩, List.all_takeWhile⟩, ?_⟩,
                      ⟨⟨⟨hhostne, List.all_takeWhile⟩, by simp⟩, by simp⟩⟩, parseQuery_wf hq⟩
                    · rw [← takeWhile_cons_slash, ← heq3]
                      exact List.all_takeWhile
                  · exact absurd h (by simp)
                case h_3 => exact absurd h (by simp)
              case h_4 => exact absurd h (by simp)
        · rename_i hsp
          split at h
          case h_1 => exact absurd h (by simp)
          case h_2 hnotslash =>
            have hpath : (List.takeWhile isPathChar r1).all isPathChar = true :=
              List.all_takeWhile
            have hhd : ¬(List.takeWhile isPathChar r1).head?.getD ' ' = '/' := by
              cases hr1 : r1 with
              | nil => decide
              | cons c t =>
                have hc : c ≠ '/' := fun hcc => hnotslash t (by rw [hr1, hcc])
                rw [List.takeWhile_cons]
                by_cases hpc : isPathChar c = true
                · rw [if_pos hpc]
                  simpa using hc
                · rw [if_neg hpc]
                  decide
            split at h
            case h_1 heq2 =>
              injection h with h'
              subst h'
              simp only [UrlWfB, if_neg hsp, Bool.and_eq_true, decide_eq_true_eq]
              exact ⟨⟨⟨⟨⟨hne, hhead⟩, List.all_takeWhile⟩, hpath⟩, ⟨by simp, by simpa using hhd⟩⟩,
                trivial⟩
            case h_2 q heq2 =>
              split at h
              · rename_i hq
                injection h with h'
                subst h'
                simp only [UrlWfB, if_neg hsp, Bool.and_eq_true, decide_eq_true_eq]
                exact ⟨⟨⟨⟨⟨hne, hhead⟩, List.all_takeWhile⟩, hpath⟩,
                  ⟨by simp, by simpa using hhd⟩⟩, parseQuery_wf hq⟩
              · exact absurd h (by simp)
            case h_3 => exact absurd h (by simp)

theorem forceHttps_scheme (u : UrlModel) :
    (forceHttps u).scheme = if isSpecial u.scheme then "https".data else u.scheme := by
  unfold forceHttps
  by_cases h1 : u.scheme = "https".data
  · rw [if_neg (by simp [h1])]
    have : isSpecial u.scheme = true := by rw [h1]; decide
    simp [this, h1]
  · rw [if_pos h1]
    by_cases h2 : isSpecial u.scheme = true
    · simp [h2]
    · simp [h2]

theorem forceHttps_host (u : UrlModel) : (forceHttps u).host = u.host := by
  unfold forceHttps
  split
  · split <;> rfl
  · rfl

theorem forceHttps_path (u : UrlModel) : (forceHttps u).path = u.path := by
  unfold forceHttps
  split
  · split <;> rfl
  · rfl

theorem forceHttps_query (u : UrlModel) : (forceHttps u).query = u.query := by
  unfold forceHttps
  split
  · split <;> rfl
  · rfl

theorem forceHttps_isSpecial (u : UrlModel) :
    isSpecial (forceHttps u).scheme = isSpecial u.scheme := by
  rw [forceHttps_scheme]
  by_cases h : isSpecial u.scheme = true
  · simp [h]
    decide
  · simp [h]

theorem removeTrackingParams_scheme (u : UrlModel) :
    (removeTrackingParams u).scheme = u.scheme := by
  unfold removeTrackingParams
  split <;> rfl

theorem removeTrackingParams_host (u : UrlModel) :
    (removeTrackingParams u).host = u.host := by
  unfold removeTrackingParams
  split <;> rfl

theorem removeTrackingParams_path (u : UrlModel) :
    (removeTrackingParams u).path = u.path := by
  unfold removeTrackingParams
  split <;> rfl

theorem stripTrailingSlash_scheme (u : UrlModel) :
    (stripTrailingSlash u).scheme = u.scheme := by
  unfold stripTrailingSlash
  split
  · split <;> rfl
  · rfl

theorem stripTrailingSlash_host (u : UrlModel) : (stripTrailingSlash u).host = u.host := by
  unfold stripTrailingSlash
  split
  · split <;> rfl
  · rfl

theorem stripTrailingSlash_query (u : UrlModel) :
    (stripTrailingSlash u).query = u.query := by
  unfold stripTrailingSlash
  split
  · split <;> rfl
  · rfl

theorem stripTrailingSlash_path (u : UrlModel) :
    (stripTrailingSlash u).path = if needsStrip u = true then u.path.dropLast else u.path := by
  unfold stripTrailingSlash needsStrip
  by_cases hs : isSpecial u.scheme = true
  · rw [if_pos hs]
    by_cases hc : (u.path ≠ ['/'] && u.path.getLast? = some '/') = true
    · rw [if_pos hc]
      simp only [Bool.and_eq_true, decide_eq_true_eq] at hc
      simp [hs, hc.1, hc.2]
    · rw [if_neg hc]
      simp only [Bool.and_eq_true] at hc ⊢
      rw [if_neg (by simpa [hs] using hc)]
  · rw [if_neg hs]
    have : (isSpecial u.scheme && (u.path ≠ ['/'] && u.path.getLast? = some '/')) = false := by
      simp [hs]
    rw [this]
    simp

theorem canonRec_scheme (u : UrlModel) :
    (canonRec u).scheme = if isSpecial u.scheme then "https".data else u.scheme := by
  unfold canonRec
  rw [stripTrailingSlash_scheme, removeTrackingParams_scheme, forceHttps_scheme]

theorem canonRec_host (u : UrlModel) : (canonRec u).host = u.host := by
  unfold canonRec
  rw [stripTrailingSlash_host, removeTrackingParams_host, forceHttps_host]

theorem canonRec_isSpecial (u : UrlModel) :
    isSpecial (canonRec u).scheme = isSpecial u.scheme := by
  rw [canonRec_scheme]
  by_cases h : isSpecial u.scheme = true
  · simp [h]
    decide
  · simp [h]

theorem foldl_deleteParam_subset (names : List (List Char))
    (ps : List (List Char × List Char)) :
    ∀ p ∈ names.foldl deleteParam ps, p ∈ ps := by
  induction names generalizing ps with
  | nil => intro p hp; exact hp
  | cons n ns ih =>
    intro p hp
    have := ih (deleteParam ps n) p hp
    exact (List.mem_filter.mp this).1

theorem foldl_deleteParam_no_names (names : List (List Char))
    (ps : List (List Char × List Char)) :
    ∀ p ∈ names.foldl deleteParam ps, ∀ n ∈ names, p.1 ≠ n := by
  induction names generalizing ps with
  | nil => intro p _ n hn; exact absurd hn (List.not_mem_nil n)
  | cons m ms ih =>
    intro p hp n hn
    rcases List.mem_cons.mp hn with rfl | hn
    · have hmem : p ∈ deleteParam ps n := foldl_deleteParam_subset ms (deleteParam ps n) p hp
      have := (List.mem_filter.mp hmem).2
      simpa using this
    · exact ih (deleteParam ps m) p hp n hn

theorem foldl_deleteParam_fixed (names : List (List Char))
    (ps : List (List Char × List Char)) (h : ∀ p ∈ ps, ∀ n ∈ names, p.1 ≠ n) :
    names.foldl deleteParam ps = ps := by
  induction names generalizing ps with
  | nil => rfl
  | cons m ms ih =>
    have hdel : deleteParam ps m = ps := by
      apply List.filter_eq_self.mpr
      intro p hp
      simpa using h p hp m (by simp)
    rw [List.foldl_cons, hdel]
    exact ih ps (fun p hp n hn => h p hp n (by simp [hn]))

theorem canonRec_query (u : UrlModel) :
    (canonRec u).query =
      match u.query with
      | none => none
      | some ps =>
        let ps2 := trackingParams.foldl deleteParam ps
        if ps2 = [] then none else some ps2 := by
  unfold canonRec
  rw [stripTrailingSlash_query]
  show (removeTrackingParams (forceHttps u)).query = _
  unfold removeTrackingParams
  rw [forceHttps_query]
  cases hq : u.query with
  | none =>
    simp only []
    rw [forceHttps_query, hq]
  | some ps =>
    simp only []

theorem canonRec_path (u : UrlModel) :
    (canonRec u).path = if needsStrip u = true then u.path.dropLast else u.path := by
  unfold canonRec
  rw [stripTrailingSlash_path]
  have hp : (removeTrackingParams (forceHttps u)).path = u.path := by
    rw [removeTrackingParams_path, forceHttps_path]
  have hns : needsStrip (removeTrackingParams (forceHttps u)) = needsStrip u := by
    unfold needsStrip
    rw [hp, removeTrackingParams_scheme, forceHttps_isSpecial]
  rw [hns, hp]

theorem all_dropLast {p : Char → Bool} {l : List Char} (h : l.all p = true) :
    l.dropLast.all p = true := by
  rw [List.all_eq_true] at h ⊢
  intro c hc
  exact h c ((List.dropLast_sublist l).subset hc)

theorem dropLast_slash_head {t : List Char} (hne : t ≠ []) :
    ('/' :: t).dropLast.headD ' ' = '/' ∧ ('/' :: t).dropLast ≠ [] := by
  cases t with
  | nil => exact absurd rfl hne
  | cons a l => simp [List.dropLast]

theorem canonRec_query_all (u : UrlModel) (h : UrlWfB u = true) :
    ∀ ps, (canonRec u).query = some ps → ps.all wfQueryPair = true := by
  intro ps hps
  have hcq := canonRec_query u
  rw [hps] at hcq
  cases hu2 : u.query with
  | none =>
    rw [hu2] at hcq
    exact absurd hcq (by simp)
  | some ps0 =>
    rw [hu2] at hcq
    simp only [] at hcq
    by_cases hz : trackingParams.foldl deleteParam ps0 = []
    · rw [if_pos hz] at hcq
      exact absurd hcq (by simp)
    · rw [if_neg hz] at hcq
      have hpseq : ps = trackingParams.foldl deleteParam ps0 := by injection hcq
      subst hpseq
      rw [List.all_eq_true]
      intro p hp
      have hp0 : p ∈ ps0 := foldl_deleteParam_subset _ _ p hp
      have hF : ps0.all wfQueryPair = true := by
        simp only [UrlWfB, Bool.and_eq_true] at h
        have := h.2
        rw [hu2] at this
        exact this
      exact List.all_eq_true.mp hF p hp0

theorem canonRec_wf (u : UrlModel) (h : UrlWfB u = true) : UrlWfB (canonRec u) = true := by
  have hquery := canonRec_query_all u h
  by_cases hsp : isSpecial u.scheme = true
  · have hsch : (canonRec u).scheme = "https".data := by rw [canonRec_scheme, if_pos hsp]
    have hsp2 : isSpecial (canonRec u).scheme = true := by rw [hsch]; decide
    simp only [UrlWfB] at h
    rw [if_pos hsp] at h
    simp only [Bool.and_eq_true, decide_eq_true_eq, beq_iff_eq] at h
    obtain ⟨⟨⟨⟨⟨hA, hB⟩, hC⟩, hD⟩, ⟨⟨⟨hE1, hE2⟩, hE3⟩, hE4⟩⟩, hF⟩ := h
    have hpath : (canonRec u).path.all isPathChar = true ∧
        (canonRec u).path.headD ' ' = '/' ∧ (canonRec u).path ≠ [] := by
      rw [canonRec_path]
      by_cases hn : needsStrip u = true
      · rw [if_pos hn]
        unfold needsStrip at hn
        simp only [Bool.and_eq_true, decide_eq_true_eq] at hn
        cases hup : u.path with
        | nil => exact absurd hup hE4
        | cons p0 t =>
          have hp0 : p0 = '/' := by
            have := hE3
            rw [hup] at this
            simpa using this
          subst hp0
          have ht : t ≠ [] := by
            intro hteq
            subst hteq
            exact hn.2.1 (by rw [hup])
          have hd := dropLast_slash_head ht
          rw [hup] at hD
          exact ⟨all_dropLast hD, hd.1, hd.2⟩
      · rw [if_neg hn]
        exact ⟨hD, hE3, hE4⟩
    simp only [UrlWfB]
    rw [if_pos hsp2]
    simp only [Bool.and_eq_true, decide_eq_true_eq, beq_iff_eq]
    refine ⟨⟨⟨⟨⟨by rw [hsch]; decide, by rw [hsch]; decide⟩, by rw [hsch]; decide⟩,
      hpath.1⟩, ⟨⟨⟨by rw [canonRec_host]; exact hE1, by rw [canonRec_host]; exact hE2⟩,
      hpath.2.1⟩, hpath.2.2⟩⟩, ?_⟩
    cases hcc : (canonRec u).query with
    | none => trivial
    | some ps => exact hquery ps hcc
  · have hsch : (canonRec u).scheme = u.scheme := by rw [canonRec_scheme, if_neg hsp]
    have hsp2 : isSpecial (canonRec u).scheme = false := by
      rw [hsch]
      simpa using hsp
    have hns : needsStrip u = false := by
      unfold needsStrip
      simp [hsp]
    have hpth : (canonRec u).path = u.path := by
      rw [canonRec_path, hns]
      simp
    simp only [UrlWfB] at h
    rw [if_neg hsp] at h
    simp only [Bool.and_eq_true, decide_eq_true_eq, beq_iff_eq] at h
    obtain ⟨⟨⟨⟨⟨hA, hB⟩, hC⟩, hD⟩, ⟨hE1, hE2⟩⟩, hF⟩ := h
    simp only [UrlWfB]
    rw [if_neg (by simp [hsp2])]
    simp only [Bool.and_eq_true, decide_eq_true_eq, beq_iff_eq]
    refine ⟨⟨⟨⟨⟨by rw [hsch]; exact hA, by rw [hsch]; exact hB⟩, by rw [hsch]; exact hC⟩,
      by rw [hpth]; exact hD⟩, ⟨by rw [canonRec_host]; exact hE1, by rw [hpth]; exact hE2⟩⟩, ?_⟩
    cases hcc : (canonRec u).query with
    | none => trivial
    | some ps => exact hquery ps hcc

theorem canonRec_idem (u : UrlModel) (h : needsStrip (canonRec u) = false) :
    canonRec (canonRec u) = canonRec u := by
  have h1 : forceHttps (canonRec u) = canonRec u := by
    unfold forceHttps
    by_cases hsp : isSpecial u.scheme = true
    · have hsch : (canonRec u).scheme = "https".data := by rw [canonRec_scheme, if_pos hsp]
      rw [if_neg (by simp [hsch])]
    · by_cases he : (canonRec u).scheme ≠ "https".data
      · rw [if_pos he, if_neg (by rw [canonRec_isSpecial]; exact hsp)]
      · rw [if_neg he]
  have h2 : removeTrackingParams (canonRec u) = canonRec u := by
    unfold removeTrackingParams
    cases hq : (canonRec u).query with
    | none => simp only []
    | some ps =>
      simp only []
      have hcq := canonRec_query u
      rw [hq] at hcq
      cases hu2 : u.query with
      | none =>
        rw [hu2] at hcq
        exact absurd hcq (by simp)
      | some ps0 =>
        rw [hu2] at hcq
        simp only [] at hcq
        by_cases hz : trackingParams.foldl deleteParam ps0 = []
        · rw [if_pos hz] at hcq
          exact absurd hcq (by simp)
        · rw [if_neg hz] at hcq
          have hpseq : ps = trackingParams.foldl deleteParam ps0 := by injection hcq
          have hnot : ∀ p ∈ ps, ∀ n ∈ trackingParams, p.1 ≠ n := by
            intro p hp n hn
            exact foldl_deleteParam_no_names trackingParams ps0 p (hpseq ▸ hp) n hn
          rw [foldl_deleteParam_fixed trackingParams ps hnot]
          have hpsne : ps ≠ [] := by
            rw [hpseq]
            exact hz
          rw [if_neg hpsne, ← hq]
  have h3 : stripTrailingSlash (canonRec u) = canonRec u := by
    unfold stripTrailingSlash
    unfold needsStrip at h
    by_cases hsp2 : isSpecial (canonRec u).scheme = true
    · rw [if_pos hsp2]
      rw [hsp2] at h
      simp only [Bool.true_and] at h
      rw [if_neg ?_]
      intro hcond
      rw [hcond] at h
      exact absurd h (by decide)
    · rw [if_neg hsp2]
  show stripTrailingSlash (removeTrackingParams (forceHttps (canonRec u))) = canonRec u
  rw [h1, h2, h3]

/-! ## Claim theorems -/

/-- C1 (counterexample): with six security-category feeds,
`extractSecurityAlerts` returns six alerts — more than `maxItemsPerCategory`
(5) — so not every extract function caps its section at five. -/
theorem extractSecurityAlerts_uncapped_cx :
    (extractSecurityAlerts secCxFeeds).length = 6 ∧
    ¬ (extractSecurityAlerts secCxFeeds).length ≤ 5 := by
  constructor
  · rfl
  · decide

/-- C1 (amended): only `extractTopSignals` is capped (at five items); each of
the other extract functions of the classifying ScanService returns exactly
one output item per input feed of the matching category, with no cap. -/
theorem extract_caps_amended (feeds : List CategorizedFeed) :
    (extractTopSignals feeds).length ≤ 5 ∧
    (extractSecurityAlerts feeds).length = feeds.countP (fun f => f.category == "security") ∧
    (extractAwsPlatformChanges feeds).length = feeds.countP (fun f => f.category == "aws_platform") ∧
    (extractAiTrends feeds).length
      = feeds.countP (fun f => f.category == "ai_healthcare" || f.category == "ai_platform") ∧
    (extractCorporateNews feeds).length = feeds.countP (fun f => f.category == "corporate") ∧
    (extractDeveloperExperience feeds).length
      = feeds.countP (fun f => f.category == "developer_experience") := by
  refine ⟨?_, ?_, ?_, ?_, ?_, ?_⟩
  · simp only [extractTopSignals, List.length_map, List.length_take]
    omega
  · simp [extractSecurityAlerts, List.countP_eq_length_filter]
  · simp [extractAwsPlatformChanges, List.countP_eq_length_filter]
  · simp [extractAiTrends, List.countP_eq_length_filter]
  · simp [extractCorporateNews, List.countP_eq_length_filter]
  · simp [extractDeveloperExperience, List.countP_eq_length_filter]

/-- C2 (counterexample): the merge stage keeps both copies of a story whose
canonical URLs coincide, including the later-published rediscovery, so the
merged output is not deduplicated by canonical URL and does not retain only
the earliest-published duplicate. -/
theorem mergeFeeds_no_dedup_cx :
    mergeFeeds [[dupLater], [dupEarlier]] = [dupLater, dupEarlier] ∧
    dupLater.source_url = dupEarlier.source_url ∧
    dupLater ≠ dupEarlier ∧
    (mergeFeeds [[dupLater], [dupEarlier]]).countP
      (fun f => f.source_url == "https://x.com/story") = 2 := by
  refine ⟨rfl, rfl, by decide, rfl⟩

/-- C2 (amended): the merge stage is plain concatenation of the per-source
item sequences in order; it performs no deduplication, so for every canonical
URL the merged output contains exactly as many items with that URL as the
inputs did in total. -/
theorem mergeFeeds_concat_amended (feedLists : List (List RawFeed)) :
    mergeFeeds feedLists = feedLists.flatten ∧
    ∀ u : String,
      (mergeFeeds feedLists).countP (fun f => f.source_url == u)
        = (feedLists.map (fun l => l.countP (fun f => f.source_url == u))).sum := by
  have h : mergeFeeds feedLists = feedLists.flatten := by
    simpa using foldl_append_eq_flatten [] feedLists
  exact ⟨h, fun u => by rw [h]; exact countP_flatten_eq_sum _ _⟩

/-- C5: any error raised while fetching one source is absorbed —
`fetchSource` returns the empty list — and the scan produces the very same
complete `ScanResult` it would produce without that source, leaving every
other source's items unchanged. -/
theorem fetchSource_error_isolation (source : Source) (e : String)
    (config : SourceConfiguration) (date : String) (topic : Topic)
    (pre post : List FetchTask) :
    fetchSource source (Except.error e) = [] ∧
    performScan config date (pre ++ ⟨topic, source, Except.error e⟩ :: post)
      = performScan config date (pre ++ post) := by
  constructor
  · unfold fetchSource
    split <;> rfl
  · unfold performScan
    simp [taskFeeds, annotateFeeds]

/-- C6: whenever the research call fails, `performResearch` swallows the
error and returns the report whose every section of the taxonomy is present
as an empty list, with the requested date and timezone preserved. -/
theorem performResearch_failure_empty (date timezone e : String) :
    performResearch date timezone (Except.error e) =
      { date := some date, timezone := some timezone, top_signals := some [],
        trend_watchlist := some [], security_alerts := some [],
        aws_platform_changes := some [], ai_trends := some [],
        corporate_competitors := some [], developer_experience := some [],
        raw_feed := some [] } ∧
    (performResearch date timezone (Except.error e)).date = some date ∧
    (performResearch date timezone (Except.error e)).timezone = some timezone ∧
    (performResearch date timezone (Except.error e)).top_signals = some [] ∧
    (performResearch date timezone (Except.error e)).trend_watchlist = some [] ∧
    (performResearch date timezone (Except.error e)).security_alerts = some [] ∧
    (performResearch date timezone (Except.error e)).aws_platform_changes = some [] ∧
    (performResearch date timezone (Except.error e)).ai_trends = some [] ∧
    (performResearch date timezone (Except.error e)).corporate_competitors = some [] ∧
    (performResearch date timezone (Except.error e)).developer_experience = some [] ∧
    (performResearch date timezone (Except.error e)).raw_feed = some [] :=
  ⟨rfl, rfl, rfl, rfl, rfl, rfl, rfl, rfl, rfl, rfl, rfl⟩

/-- The concrete item `processRssItem` produces for `noFieldsItem`. -/
def noFieldsOut : ValidatedRawFeed :=
  { title := "AWS update", source := "AWS", source_url := "https://aws.amazon.com/",
    published_at := "1970-01-01T00:00:00.100Z", domain := "aws.amazon.com",
    status_code := 200, checked_at := "now-iso" }

/-- C4 (code bug): for every cutoff, the recency check of `processRssItem`
keeps an item whose publish date does not parse (and so does the recency
filter of the older fetcher variant), yet `processRssItem` then throws
`Invalid time value` at `publishedAt.toISOString()`, so the per-item catch
turns the item into `null` and it is dropped after all. -/
theorem unparseableDate_dropped_bug :
    (∀ cutoff : Int, freshnessDrop cutoff (publishedTime cxEnv badDateItem) = false) ∧
    (∀ cutoff : Int, rssRecencyKeep cutoff (publishedTime cxEnv badDateItem) = true) ∧
    (∀ cutoff : Int, processRssItem cxEnv okProbes badDateItem awsSource cutoff
        = Except.error "Invalid time value") ∧
    (∀ cutoff : Int, processItemCaught cxEnv okProbes badDateItem awsSource cutoff = none) :=
  ⟨fun _ => rfl, fun _ => rfl, fun _ => rfl, fun _ => rfl⟩

/-- C7 (counterexample): a probe answering 201 — a 2xx status — is classified
valid by `validateUrl` and survives `processRssItem`, yet `fetchRssFeed`
drops the item because its retention filter demands status exactly 200; the
same item with a 200 probe is retained. -/
theorem validateUrl_2xx_not_retained_cx :
    (validateUrl ⟨.ok 201, .ok 201⟩ "now-iso" "https://aws.amazon.com/x").isValid = true ∧
    (processItemCaught cxEnv ⟨.ok 201, .ok 201⟩ freshItem awsSource 0).isSome = true ∧
    fetchRssFeedItems cxEnv awsSource 24 [(freshItem, ⟨.ok 201, .ok 201⟩)] = [] ∧
    fetchRssFeedItems cxEnv awsSource 24 [(freshItem, okProbes)] ≠ [] := by
  refine ⟨rfl, rfl, rfl, by decide⟩

/-- C7 (amended): `validateUrl` classifies an item valid exactly when its
probe (HEAD, or the GET fallback when HEAD throws) answers a 2xx status, and
invalid when both probes fail; but the batch retains an item exactly when its
recorded status is 200 — not any 2xx — and its domain is allowlisted. -/
theorem validateUrl_2xx_retained_amended (rawUrl checkedAt : String) (st : Nat)
    (g : ProbeResult) (hAllowed : isDomainAllowed (canonicalizeUrl rawUrl) = true) :
    ((validateUrl ⟨.ok st, g⟩ checkedAt rawUrl).isValid = true ↔ 200 ≤ st ∧ st < 300) ∧
    (∀ mh : String,
      ((validateUrl ⟨.err mh, .ok st⟩ checkedAt rawUrl).isValid = true ↔ 200 ≤ st ∧ st < 300)) ∧
    (∀ mh mg : String, (validateUrl ⟨.err mh, .err mg⟩ checkedAt rawUrl).isValid = false) ∧
    (∀ v : ValidatedRawFeed,
      retainValidItem v = true ↔ v.status_code = 200 ∧ isDomainAllowed v.source_url = true) := by
  refine ⟨?_, fun mh => ?_, fun mh mg => ?_, fun v => ?_⟩
  · simp [validateUrl, hAllowed, responseResult]
  · simp [validateUrl, hAllowed, responseResult]
  · simp [validateUrl, hAllowed]
  · simp [retainValidItem]

/-- C7 (witness): the amended theorem applied to an allowlisted URL probed
with status 204. -/
theorem validateUrl_2xx_retained_witness :
    (validateUrl ⟨.ok 204, .ok 204⟩ "t" "https://aws.amazon.com/x").isValid = true
      ↔ 200 ≤ 204 ∧ 204 < 300 :=
  (validateUrl_2xx_retained_amended "https://aws.amazon.com/x" "t" 204 (.ok 204) (by decide)).1

/-- C8 (counterexample): an entry missing both its title and its URL is not
excluded: `processRssItem` keeps it, substituting the synthetic title
`"AWS update"` (source name + " update") and the source's configured URL as
the link. -/
theorem missing_title_link_kept_cx :
    processItemCaught cxEnv okProbes noFieldsItem awsSource 0 ≠ none ∧
    (processItemCaught cxEnv okProbes noFieldsItem awsSource 0).map (fun f => f.title)
      = some "AWS update" ∧
    (processItemCaught cxEnv okProbes noFieldsItem awsSource 0).map (fun f => f.source_url)
      = some "https://aws.amazon.com/" := by
  refine ⟨by decide, rfl, rfl⟩

/-- C8 (amended): an item missing its title or its URL is not excluded — the
title falls back to `"<source name> update"` and the link falls back to the
source's configured URL — while any error thrown during item processing is
caught per item and yields `null`, never failing the batch. -/
theorem missing_fields_fallback_amended (env : FetchEnv) (probes : ProbeEnv)
    (item : RssItem) (source : Source) (cutoff : Int) :
    (∀ f, processRssItem env probes item source cutoff = .ok (some f) →
        (item.title = none → f.title = source.name ++ " update") ∧
        (item.link = none →
          f.source_url = (validateUrl probes env.nowIso (canonicalizeUrl source.url)).url)) ∧
    (∀ e, processRssItem env probes item source cutoff = .error e →
        processItemCaught env probes item source cutoff = none) := by
  constructor
  · intro f hf
    unfold processRssItem at hf
    simp only [] at hf
    split at hf
    · exact absurd hf (by simp)
    · split at hf
      · exact absurd hf (by simp)
      · split at hf
        · exact absurd hf (by simp)
        · split at hf
          · exact absurd hf (by simp)
          · rename_i t heq
            have hrec := Except.ok.inj hf
            have hrec' := Option.some.inj hrec
            constructor
            · intro htitle
              rw [← hrec']
              simp [htitle, jsOrDefault]
            · intro hlink
              rw [← hrec']
              simp [hlink, jsOrDefault]
  · intro e he
    simp [processItemCaught, he]

/-- C8 (witness): the amended theorem applied to the concrete entry with no
title and no link. -/
theorem missing_fields_fallback_witness :
    noFieldsOut.title = awsSource.name ++ " update" ∧
    noFieldsOut.source_url
      = (validateUrl okProbes cxEnv.nowIso (canonicalizeUrl awsSource.url)).url := by
  have H := (missing_fields_fallback_amended cxEnv okProbes noFieldsItem awsSource 0).1
    noFieldsOut rfl
  exact ⟨H.1 rfl, H.2 rfl⟩

/-- C3 (counterexample): a run whose only selected item comes from the
health cluster — the cluster holds 100% of the selected items, exceeding the
40% cap, so no cluster proportional cap is enforced. -/
theorem clusterCap_violated_cx :
    totalSelected c3Run = 1 ∧ healthSelected c3Run = 1 ∧
    healthSelected c3Run * 5 > totalSelected c3Run * 2 := by decide

/-- C3 (amended): the classification pipeline enforces no cluster
proportional cap: whenever every fetched topic is in the health cluster
(category `ai_healthcare`) with priority at least 3, every selected item of
the run belongs to the cluster — the cluster's share is 100% of the
selection, not at most 40%. -/
theorem clusterCap_unenforced_amended (config : SourceConfiguration) (date : String)
    (tasks : List FetchTask)
    (hcat : ∀ t ∈ tasks, t.topic.category = "ai_healthcare")
    (hpri : ∀ t ∈ tasks, 3 ≤ t.topic.priority) :
    healthSelected (performScan config date tasks)
      = totalSelected (performScan config date tasks) := by
  unfold performScan
  simp only []
  generalize hcfeq : (tasks.map
    (fun t => annotateFeeds config t.topic (taskFeeds t))).flatten = cf
  have hmem : ∀ f ∈ cf, f.category = "ai_healthcare" ∧ 3 ≤ f.priority := by
    intro f hf
    rw [← hcfeq] at hf
    rcases List.mem_flatten.mp hf with ⟨l, hl, hfl⟩
    rcases List.mem_map.mp hl with ⟨t, ht, rfl⟩
    rcases List.mem_map.mp hfl with ⟨feed, _, rfl⟩
    exact ⟨hcat t ht, hpri t ht⟩
  have htop : extractTopSignals cf = [] := by
    unfold extractTopSignals
    have h0 : cf.filter (fun f => decide (f.priority ≤ 2)) = [] := by
      rw [List.filter_eq_nil_iff]
      intro f hf
      have := (hmem f hf).2
      simp only [decide_eq_true_eq]
      omega
    rw [h0]
    rfl
  have hsec : extractSecurityAlerts cf = [] := by
    unfold extractSecurityAlerts
    have h0 : cf.filter (fun f => f.category == "security") = [] := by
      rw [List.filter_eq_nil_iff]
      intro f hf
      simp [(hmem f hf).1]
    rw [h0]
    rfl
  have haws : extractAwsPlatformChanges cf = [] := by
    unfold extractAwsPlatformChanges
    have h0 : cf.filter (fun f => f.category == "aws_platform") = [] := by
      rw [List.filter_eq_nil_iff]
      intro f hf
      simp [(hmem f hf).1]
    rw [h0]
    rfl
  have hcorp : extractCorporateNews cf = [] := by
    unfold extractCorporateNews
    have h0 : cf.filter (fun f => f.category == "corporate") = [] := by
      rw [List.filter_eq_nil_iff]
      intro f hf
      simp [(hmem f hf).1]
    rw [h0]
    rfl
  have hdx : extractDeveloperExperience cf = [] := by
    unfold extractDeveloperExperience
    have h0 : cf.filter (fun f => f.category == "developer_experience") = [] := by
      rw [List.filter_eq_nil_iff]
      intro f hf
      simp [(hmem f hf).1]
    rw [h0]
    rfl
  have hwatch : extractTrendWatchlist cf = [] := by
    unfold extractTrendWatchlist
    have h0 : cf.filter (fun f => !excludedCategories.contains f.category) = [] := by
      rw [List.filter_eq_nil_iff]
      intro f hf
      simp [(hmem f hf).1, excludedCategories]
    rw [h0]
    rfl
  have hfil : cf.filter (fun f => f.category == "ai_healthcare" || f.category == "ai_platform") = cf := by
    rw [List.filter_eq_self]
    intro f hf
    simp [(hmem f hf).1]
  have hclin : (extractAiTrends cf).filter (fun t => t.category == "clinical")
      = extractAiTrends cf := by
    rw [List.filter_eq_self]
    intro t ht
    unfold extractAiTrends at ht
    rw [hfil] at ht
    rcases List.mem_map.mp ht with ⟨feed, hfeed, rfl⟩
    simp [(hmem feed hfeed).1]
  simp only [totalSelected, healthSelected, htop, hsec, haws, hcorp, hdx, hwatch, hclin]
  simp

/-- C3 (witness): the amended theorem applied to the single-task
health-cluster run. -/
theorem clusterCap_unenforced_witness :
    healthSelected (performScan c3Config "2026-10-12" [⟨c3Topic, c3Src, .ok [c3Feed]⟩])
      = totalSelected (performScan c3Config "2026-10-12" [⟨c3Topic, c3Src, .ok [c3Feed]⟩]) :=
  clusterCap_unenforced_amended c3Config "2026-10-12" [⟨c3Topic, c3Src, .ok [c3Feed]⟩]
    (by intro t ht; simp at ht; subst ht; rfl)
    (by intro t ht; simp at ht; subst ht; decide)

/-- C9 (counterexample): `new URL` parses `mailto:a@b.com`, but the WHATWG
scheme setter refuses to switch a non-special scheme to `https`, so
`canonicalizeUrl` returns the URL with its scheme still `mailto` — the
scheme is not always upgraded to https. -/
theorem canonicalizeUrl_mailto_cx :
    canonicalizeUrl "mailto:a@b.com" = "mailto:a@b.com" ∧
    (parseUrl "mailto:a@b.com").isSome = true ∧
    (parseUrl (canonicalizeUrl "mailto:a@b.com")).map (fun u => u.scheme)
      = some "mailto".data ∧
    "mailto".data ≠ "https".data := by
  refine ⟨rfl, rfl, rfl, by decide⟩

/-- C9 (amended): for parseable URLs `canonicalizeUrl` upgrades the scheme to
https only when the scheme is special (http, ws, wss, ftp, file) — a
non-special scheme such as `mailto:` is left unchanged — while it removes
every tracking parameter of the fixed list, preserves the host, strips a
single trailing slash from non-root special paths, and returns any
unparseable input unchanged (it never throws). -/
theorem canonicalizeUrl_amended (s : String) :
    (parseUrl s = none → canonicalizeUrl s = s) ∧
    (∀ u, parseUrl s = some u →
      canonicalizeUrl s = serializeUrl (canonRec u) ∧
      (canonRec u).scheme = (if isSpecial u.scheme then "https".data else u.scheme) ∧
      (canonRec u).host = u.host ∧
      (∀ ps, (canonRec u).query = some ps → ∀ p ∈ ps, ∀ n ∈ trackingParams, p.1 ≠ n) ∧
      (canonRec u).path = (if needsStrip u = true then u.path.dropLast else u.path)) := by
  constructor
  · intro h
    unfold canonicalizeUrl
    rw [h]
  · intro u hu
    refine ⟨by unfold canonicalizeUrl; rw [hu], canonRec_scheme u, canonRec_host u, ?_,
      canonRec_path u⟩
    intro ps hps p hp n hn
    have hcq := canonRec_query u
    rw [hps] at hcq
    cases hq : u.query with
    | none =>
      rw [hq] at hcq
      exact absurd hcq (by simp)
    | some ps0 =>
      rw [hq] at hcq
      simp only [] at hcq
      by_cases hz : trackingParams.foldl deleteParam ps0 = []
      · rw [if_pos hz] at hcq
        exact absurd hcq (by simp)
      · rw [if_neg hz] at hcq
        have hpseq : ps = trackingParams.foldl deleteParam ps0 := by injection hcq
        exact foldl_deleteParam_no_names trackingParams ps0 p (hpseq ▸ hp) n hn

/-- C9 (witness): the amended theorem applied to `http://x.com/p/`, whose
canonical form upgrades the scheme, keeps the host and strips the trailing
slash. -/
theorem canonicalizeUrl_amended_witness :
    canonicalizeUrl "http://x.com/p/"
      = serializeUrl (canonRec ⟨"http".data, "x.com".data, "/p/".data, none⟩) :=
  ((canonicalizeUrl_amended "http://x.com/p/").2
    ⟨"http".data, "x.com".data, "/p/".data, none⟩ (by decide)).1

/-- C10 (counterexample): `canonicalizeUrl` strips only one trailing slash
per application, so on a path ending in a double slash a second application
changes the result again — the function is not idempotent. -/
theorem canonicalizeUrl_not_idem_cx :
    canonicalizeUrl "https://x.com/a//" = "https://x.com/a/" ∧
    canonicalizeUrl (canonicalizeUrl "https://x.com/a//") = "https://x.com/a" ∧
    canonicalizeUrl (canonicalizeUrl "https://x.com/a//")
      ≠ canonicalizeUrl "https://x.com/a//" := by
  refine ⟨rfl, rfl, by decide⟩

/-- C10 (amended): `canonicalizeUrl` is idempotent on unparseable inputs and
on every parseable URL whose canonical form needs no further trailing-slash
strip (in particular whenever the original path has at most one trailing
slash); it is not idempotent in general, since each application strips only
one trailing slash. -/
theorem canonicalizeUrl_idem_amended (s : String) :
    (parseUrl s = none → canonicalizeUrl (canonicalizeUrl s) = canonicalizeUrl s) ∧
    (∀ u, parseUrl s = some u → needsStrip (canonRec u) = false →
      canonicalizeUrl (canonicalizeUrl s) = canonicalizeUrl s) := by
  constructor
  · intro h
    have h1 : canonicalizeUrl s = s := by
      unfold canonicalizeUrl
      rw [h]
    rw [h1]
    exact h1
  · intro u hu hns
    have h1 : canonicalizeUrl s = serializeUrl (canonRec u) := by
      unfold canonicalizeUrl
      rw [hu]
    have hwf : UrlWfB (canonRec u) = true := canonRec_wf u (parseUrl_wf hu)
    have h2 : parseUrl (serializeUrl (canonRec u)) = some (canonRec u) :=
      parseUrl_serializeUrl _ hwf
    rw [h1]
    unfold canonicalizeUrl
    rw [h2]
    simp only []
    rw [canonRec_idem u hns]

/-- C10 (witness): the amended theorem applied to `https://x.com/a`, a URL
with no trailing slash, where a second canonicalisation changes nothing. -/
theorem canonicalizeUrl_idem_witness :
    canonicalizeUrl (canonicalizeUrl "https://x.com/a") = canonicalizeUrl "https://x.com/a" :=
  (canonicalizeUrl_idem_amended "https://x.com/a").2
    ⟨"https".data, "x.com".data, "/a".data, none⟩ (by decide) (by decide)

end MDaily
